import Mathlib

/-!
Shallow embedding of the thesis-examination scheduling decision-support system
found in `src/backend` (`models.py`, `mcdm_methods.py`, `scheduling_engine.py`),
together with proofs about the claims of the specification.

Modelling conventions:
* Python `float` is modelled as `ℚ` wherever the source only adds, multiplies,
  divides and compares (the SAW scorer and the whole allocator), and as `ℝ`
  where square roots or eigenvalues occur (TOPSIS, the schedule-quality
  analyzer, AHP).  Division by zero in `ℚ`/`ℝ` is Lean's junk value `0`;
  wherever the distinction to IEEE NaN matters it is discussed at the
  definition site, and the AHP consistency computation marks non-finite
  results explicitly with `Option ℝ` (`none` = the NaN/inf produced by a
  division by zero in numpy).
* Python `int` is `Int`, Python `str` is `String`.  String helpers
  (`lower()`, `upper()`, `split()`, the substring operator `in`) are given
  structural re-implementations so that they evaluate by kernel reduction.
* In-place mutation of `examiner.workload` (the only mutation the allocator
  performs) is modelled by threading the examiner list through the run as
  explicit state; `generate_schedule` returns the final examiner list next to
  the solution, which is exactly what a Python caller observes on its own
  `Examiner` objects after the call.
* A raised exception is `Except.error`; for `generate_schedule` the error
  value carries the internal `AllocState` at the moment of the raise, because
  the examiner-list part of that state is shared with the caller in Python and
  hence observable even when the exception propagates.
* Python's stable descending sort (`sorted(..., reverse=True)`, `list.sort`)
  is modelled by a structural stable insertion sort `sortByDesc`; stability
  plus descending order determine the output uniquely, so this agrees with
  Timsort.
* The TOPSIS scorer works on real numbers (square roots); inside the allocator
  its float result is abstracted as a parameter
  `scorer : List (List ℚ) → List ℚ → List CriteriaType → List ℚ` at the single
  dispatch point of `MCDMEngine.evaluate_alternatives`.  All allocator
  theorems are proved for every such scorer, so they cover both the SAW
  instantiation (given concretely below) and TOPSIS.
-/

namespace DSS

/-- `models.CriteriaType`. -/
inductive CriteriaType : Type where
  | benefit : CriteriaType
  | cost : CriteriaType
deriving DecidableEq, Repr

/-- `models.Criteria`. -/
structure Criteria where
  id : Int
  name : String
  weight : ℚ
  type : CriteriaType
  description : Option String
deriving DecidableEq, Repr

/-- `models.TimeSlot`. -/
structure TimeSlot where
  id : Int
  day : String
  start_time : String
  end_time : String
  session : String
deriving DecidableEq, Repr

/-- `models.Room`. -/
structure Room where
  id : Int
  name : String
  capacity : Int
  facilities : List String
  location : String
  quality_score : ℚ
deriving DecidableEq, Repr

/-- `models.Examiner`. -/
structure Examiner where
  id : Int
  name : String
  title : String
  expertise : List String
  experience_years : Int
  workload : Int
  availability_score : ℚ
  competency_score : ℚ
  available_timeslots : List Int
deriving DecidableEq, Repr

/-- `models.Student`. -/
structure Student where
  id : Int
  name : String
  nim : String
  thesis_title : String
  thesis_field : String
  supervisor_id : Int
  gpa : ℚ
  thesis_quality : ℚ
  preferred_timeslots : List Int
deriving DecidableEq, Repr

/-- `models.ExamSession`. -/
structure ExamSession where
  id : Int
  student_id : Int
  duration : Int
  required_examiners : Int
  priority : ℚ
deriving DecidableEq, Repr

/-- `models.ExaminerEvaluation`. -/
structure ExaminerEvaluation where
  examiner_id : Int
  student_id : Int
  compatibility_score : ℚ
  expertise_match : ℚ
  workload_factor : ℚ
  availability_factor : ℚ
deriving DecidableEq, Repr

/-- `models.ScheduleResult`.  `criteria_scores : Dict[str, float]` is a list
of key/value pairs in insertion order. -/
structure ScheduleResult where
  exam_id : Int
  student_name : String
  timeslot_id : Int
  room_id : Int
  assigned_examiners : List Int
  total_score : ℚ
  criteria_scores : List (String × ℚ)
deriving DecidableEq, Repr

/-- `models.DSSSolution`. -/
structure DSSSolution where
  schedule : List ScheduleResult
  method_used : String
  total_satisfaction : ℚ
  criteria_weights : List (String × ℚ)
  infeasible_exams : List Int
deriving DecidableEq, Repr

/-- The mutable internal state of one `generate_schedule` run: the local
variables `schedule`, `infeasible_exams`, `total_satisfaction` and the
(caller-shared, in-place mutated) examiner list. -/
structure AllocState where
  schedule : List ScheduleResult
  infeasible_exams : List Int
  total_satisfaction : ℚ
  examiners : List Examiner
deriving DecidableEq, Repr

instance {ε α : Type} [DecidableEq ε] [DecidableEq α] : DecidableEq (Except ε α) := fun a b =>
  match a, b with
  | .ok x, .ok y =>
    match decEq x y with
    | isTrue h => isTrue (by rw [h])
    | isFalse h => isFalse (fun hh => h (by cases hh; rfl))
  | .error x, .error y =>
    match decEq x y with
    | isTrue h => isTrue (by rw [h])
    | isFalse h => isFalse (fun hh => h (by cases hh; rfl))
  | .ok _, .error _ => isFalse (fun hh => by cases hh)
  | .error _, .ok _ => isFalse (fun hh => by cases hh)

/-! ### Structural re-implementations of the Python string helpers -/

/-- Python `str.lower()` (ASCII case mapping, which covers every string the
repository feeds through it). -/
def pyLower (s : String) : String := String.mk (s.data.map Char.toLower)

/-- Python `str.upper()`. -/
def pyUpper (s : String) : String := String.mk (s.data.map Char.toUpper)

/-- Helper for `pySplit`: splits a character list at whitespace runs. -/
def splitWSAux : List Char → List Char → List String
  | [], acc => if acc = [] then [] else [String.mk acc.reverse]
  | c :: cs, acc =>
    if c.isWhitespace then
      if acc = [] then splitWSAux cs [] else String.mk acc.reverse :: splitWSAux cs []
    else splitWSAux cs (c :: acc)

/-- Python `str.split()` with no argument: split on runs of whitespace and
drop empty pieces. -/
def pySplit (s : String) : List String := splitWSAux s.data []

/-- Does the character list `hay` start with `needle`? -/
def startsWithList : List Char → List Char → Bool
  | _, [] => true
  | [], _ :: _ => false
  | h :: hs, n :: ns => h == n && startsWithList hs ns

/-- Python's substring test `needle in hay` (contiguous substring). -/
def containsSubList : List Char → List Char → Bool
  | hay, needle =>
    match hay with
    | [] => needle.isEmpty
    | _ :: t => startsWithList hay needle || containsSubList t needle

/-- Python `needle in hay` on strings. -/
def pyIn (needle hay : String) : Bool := containsSubList hay.data needle.data

/-- Python slice `l[:k]` where `k` may be negative (a negative `k` keeps all
but the last `-k` elements). -/
def pySliceTo {α : Type} (k : Int) (l : List α) : List α :=
  if 0 ≤ k then l.take k.toNat else l.take (l.length - (-k).toNat)

/-! ### A structural stable descending sort

`sorted(xs, key=key, reverse=True)` and `xs.sort(key=key, reverse=True)` in
Python are stable descending sorts; stability and sortedness determine the
result uniquely, so this insertion sort computes the same list as Timsort. -/

/-- Insert `x` into the descending-sorted list `l`, after all elements whose
key is `≥ key x` (stability). -/
def insertByDesc {α : Type} (key : α → ℚ) : List α → α → List α
  | [], x => [x]
  | y :: ys, x => if key y < key x then x :: y :: ys else y :: insertByDesc key ys x

/-- Stable descending sort by `key`. -/
def sortByDesc {α : Type} (key : α → ℚ) (l : List α) : List α :=
  l.foldl (insertByDesc key) []

/-! ### Column helpers (the numpy per-column reductions) -/

/-- `np.max` over a (nonempty) rational column; the `[]` case is junk (numpy
raises there, and every use below is guarded by nonemptiness). -/
def qMax : List ℚ → ℚ
  | [] => 0
  | x :: xs => xs.foldl max x

/-- `np.min` over a (nonempty) rational column. -/
def qMin : List ℚ → ℚ
  | [] => 0
  | x :: xs => xs.foldl min x

/-- `np.max` over a real column. -/
noncomputable def rMax : List ℝ → ℝ
  | [] => 0
  | x :: xs => xs.foldl max x

/-- `np.min` over a real column. -/
noncomputable def rMin : List ℝ → ℝ
  | [] => 0
  | x :: xs => xs.foldl min x

/-- Column `j` of a row-major matrix (`decision_matrix[:, j]`).  Out-of-range
entries default to `0`; every claim is stated for genuine rectangular
matrices, where the default is never consulted. -/
def column (m : List (List ℚ)) (j : ℕ) : List ℚ := m.map (fun r => r.getD j 0)

/-! ### `mcdm_methods.SAWMethod` -/

/-- One entry of `SAWMethod.normalize_matrix`: `col` is the entry's column,
`t` the column's criteria type, `v` the raw entry.
Source (`mcdm_methods.py`, lines 84-94):
benefit: `column / max_val if max_val != 0 else column`;
cost: `min_val / column if np.all(column != 0) else 1 - (column / np.max(column))`.
In the cost fallback with an all-zero column numpy computes `0/0 = NaN`; in
`ℚ` the same expression is the junk value `1 - 0 = 1`.  The claim about score
bounds (C6) therefore explicitly excludes all-zero cost columns. -/
def sawNormEntry (col : List ℚ) (t : CriteriaType) (v : ℚ) : ℚ :=
  match t with
  | .benefit => if qMax col ≠ 0 then v / qMax col else v
  | .cost => if col.all (fun x => x ≠ 0) then qMin col / v else 1 - v / qMax col

/-- `SAWMethod.normalize_matrix` (row-major). -/
def normalize_matrix (m : List (List ℚ)) (types : List CriteriaType) : List (List ℚ) :=
  m.map (fun row =>
    (List.range types.length).map (fun j => sawNormEntry (column m j) (types.getD j .benefit) (row.getD j 0)))

/-- `SAWMethod.calculate_scores`: normalize, then `np.dot` each row with the
weight vector. -/
def saw_calculate_scores (m : List (List ℚ)) (weights : List ℚ) (types : List CriteriaType) : List ℚ :=
  (normalize_matrix m types).map (fun nrow => (List.zipWith (fun a b => a * b) nrow weights).sum)

/-! ### `mcdm_methods.TOPSISMethod` -/

/-- `TOPSISMethod.calculate_scores` over `ℝ` (vector normalization needs
square roots).  A zero column norm is replaced by `1`
(`norms[norms == 0] = 1`); the final `np.nan_to_num(scores, nan=0.0)` turns
the `0/0` NaN (both distances zero) into `0`, which coincides with Lean's
junk value for division by zero, so the division is written directly. -/
noncomputable def topsis_calculate_scores (m : List (List ℚ)) (weights : List ℚ)
    (types : List CriteriaType) : List ℝ :=
  let k := types.length
  let mr : List (List ℝ) := m.map (fun row => row.map (fun q => (q : ℝ)))
  let colNorm : ℕ → ℝ := fun j =>
    let s := Real.sqrt ((mr.map (fun row => (row.getD j 0) ^ 2)).sum)
    if s = 0 then 1 else s
  let weighted : List (List ℝ) :=
    mr.map (fun row => (List.range k).map (fun j => row.getD j 0 / colNorm j * ((weights.getD j 0 : ℚ) : ℝ)))
  let wcol : ℕ → List ℝ := fun j => weighted.map (fun row => row.getD j 0)
  let ideal : ℕ → ℝ := fun j =>
    match types.getD j .benefit with
    | .benefit => rMax (wcol j)
    | .cost => rMin (wcol j)
  let negIdeal : ℕ → ℝ := fun j =>
    match types.getD j .benefit with
    | .benefit => rMin (wcol j)
    | .cost => rMax (wcol j)
  weighted.map (fun row =>
    let dPlus := Real.sqrt (((List.range k).map (fun j => (row.getD j 0 - ideal j) ^ 2)).sum)
    let dMinus := Real.sqrt (((List.range k).map (fun j => (row.getD j 0 - negIdeal j) ^ 2)).sum)
    dMinus / (dPlus + dMinus))

/-! ### `mcdm_methods.MCDMEngine` -/

/-- The abstract type of the scorer that stands in for
`TOPSISMethod.calculate_scores` inside the allocator (see the header note). -/
abbrev Scorer : Type := List (List ℚ) → List ℚ → List CriteriaType → List ℚ

/-- Weight renormalization in `MCDMEngine.evaluate_alternatives`:
`weights / np.sum(weights)`. -/
def normalizeWeights (w : List ℚ) : List ℚ := w.map (fun x => x / w.sum)

/-- `MCDMEngine.evaluate_alternatives`.  Dispatches case-insensitively to SAW
(concrete) or TOPSIS (the abstract `scorer` parameter); an unknown method
name raises `ValueError(f"Unsupported method: {method}")`. -/
def evaluate_alternatives (scorer : Scorer) (decision_matrix : List (List ℚ))
    (criteria : List Criteria) (method : String) :
    Except String (List ℚ × List (String × ℚ)) :=
  let weights := normalizeWeights (criteria.map (fun c => c.weight))
  let types := criteria.map (fun c => c.type)
  let names := criteria.map (fun c => c.name)
  if pyUpper method = "SAW" then
    .ok (saw_calculate_scores decision_matrix weights types, names.zip weights)
  else if pyUpper method = "TOPSIS" then
    .ok (scorer decision_matrix weights types, names.zip weights)
  else
    .error ("Unsupported method: " ++ method)

/-! ### `scheduling_engine.ExamSchedulingDSS` -/

/-- The default criteria set built in `_get_default_criteria`. -/
def default_criteria : List Criteria :=
  [ ⟨1, "expertise_match", 0.30, .benefit, some "Kesesuaian keahlian penguji dengan bidang skripsi"⟩,
    ⟨2, "competency_score", 0.25, .benefit, some "Tingkat kompetensi penguji"⟩,
    ⟨3, "availability_score", 0.20, .benefit, some "Fleksibilitas ketersediaan waktu penguji"⟩,
    ⟨4, "workload", 0.15, .cost, some "Beban kerja penguji saat ini"⟩,
    ⟨5, "experience_years", 0.10, .benefit, some "Pengalaman tahun menguji"⟩ ]

/-- `calculate_expertise_match`: the fraction of the student's thesis-field
keywords matched by some examiner expertise tag (substring in either
direction, case-insensitive), capped at 1. -/
def calculate_expertise_match (examiner : Examiner) (student : Student) : ℚ :=
  let student_field_keywords := pySplit (pyLower student.thesis_field)
  let examiner_expertise := examiner.expertise.map pyLower
  let matched := (student_field_keywords.filter
    (fun kw => examiner_expertise.any (fun e => pyIn kw e || pyIn e kw))).length
  let max_possible_matches := student_field_keywords.length
  if 0 < max_possible_matches then min ((matched : ℚ) / (max_possible_matches : ℚ)) 1 else 0

/-- `evaluate_examiner_for_student`.  (The local `competency_factor` of the
source is computed and never used, so it is omitted.) -/
def evaluate_examiner_for_student (examiner : Examiner) (student : Student)
    (timeslot_id : Int) : ExaminerEvaluation :=
  let expertise_match := calculate_expertise_match examiner student
  let availability_factor : ℚ := if examiner.available_timeslots.contains timeslot_id then 1 else 0
  let workload_factor : ℚ := max 0 ((10 - (examiner.workload : ℚ)) / 10)
  { examiner_id := examiner.id
    student_id := student.id
    compatibility_score := expertise_match
    expertise_match := expertise_match
    workload_factor := workload_factor
    availability_factor := availability_factor }

/-- The per-criterion entry of the decision-matrix row built in
`select_best_examiners` (the `if/elif` chain on `criterion.name`). -/
def criterionValue (c : Criteria) (ev : ExaminerEvaluation) (examiner : Examiner) : ℚ :=
  if c.name = "expertise_match" then ev.expertise_match
  else if c.name = "competency_score" then examiner.competency_score
  else if c.name = "availability_score" then examiner.availability_score
  else if c.name = "workload" then (examiner.workload : ℚ)
  else if c.name = "experience_years" then (examiner.experience_years : ℚ)
  else 0.5

/-- `select_best_examiners`.  Returns `ok []` on every infeasibility path
(not enough available examiners, supervisor unavailable, no regular
examiners); propagates the unsupported-method `ValueError` of
`evaluate_alternatives`.  The supervisor is prepended with the fixed score
`0.9`.  (The source also computes an unused `supervisor_evaluation`;
omitted.) -/
def select_best_examiners (scorer : Scorer) (student : Student) (examiners : List Examiner)
    (timeslot_id : Int) (required_count : Int) (criteria : List Criteria) (method : String) :
    Except String (List (Examiner × ℚ)) :=
  let available_examiners := examiners.filter (fun e => e.available_timeslots.contains timeslot_id)
  if (available_examiners.length : Int) < required_count then .ok []
  else
    let regular_examiners := available_examiners.filter (fun e => e.id != student.supervisor_id)
    match available_examiners.find? (fun e => e.id == student.supervisor_id) with
    | none => .ok []
    | some supervisor =>
      let decision_matrix := regular_examiners.map (fun ex =>
        criteria.map (fun c => criterionValue c (evaluate_examiner_for_student ex student timeslot_id) ex))
      if decision_matrix = [] then .ok []
      else
        match evaluate_alternatives scorer decision_matrix criteria method with
        | .error e => .error e
        | .ok (scores, _) =>
          let examiner_scores := regular_examiners.zip scores
          let sorted_scores := sortByDesc (fun p => p.2) examiner_scores
          let selected_regular := pySliceTo (required_count - 1) sorted_scores
          .ok ((supervisor, (0.9 : ℚ)) :: selected_regular)

/-- `evaluate_room_suitability` (with the default `required_capacity = 10`,
the only way the allocator calls it). -/
def evaluate_room_suitability (room : Room) (_student : Student) : ℚ :=
  let capacity_factor := min ((room.capacity : ℚ) / 10) 1
  let quality_factor := room.quality_score / 5
  let facility_factor := min (((room.facilities.length : ℚ) / 10)) 1
  capacity_factor * 0.5 + quality_factor * 0.3 + facility_factor * 0.2

/-- `check_scheduling_constraints`: `new_exam` may be added iff no existing
exam shares its timeslot with the same room or an overlapping examiner set. -/
def check_scheduling_constraints : List ScheduleResult → ScheduleResult → Bool
  | [], _ => true
  | existing :: rest, new_exam =>
    if existing.timeslot_id = new_exam.timeslot_id then
      if existing.room_id = new_exam.room_id then false
      else if existing.assigned_examiners.any (fun x => new_exam.assigned_examiners.contains x) then false
      else check_scheduling_constraints rest new_exam
    else check_scheduling_constraints rest new_exam

/-- The `student_lookup` dict `{s.id: s for s in students}`; with duplicate
ids a Python dict keeps the last binding. -/
def studentLookup (students : List Student) (sid : Int) : Option Student :=
  (students.filter (fun s => s.id == sid)).getLast?

/-- One step of the in-place workload update: Python's inner
`for examiner in examiners: if examiner.id == examiner_id: workload += 1; break`
bumps the first examiner with a matching id. -/
def bumpOne : List Examiner → Int → List Examiner
  | [], _ => []
  | e :: rest, eid =>
    if e.id = eid then { e with workload := e.workload + 1 } :: rest
    else e :: bumpOne rest eid

/-- The outer workload-update loop over `best_schedule.assigned_examiners`. -/
def bumpWorkloads (examiners : List Examiner) (ids : List Int) : List Examiner :=
  ids.foldl bumpOne examiners

/-- The body of the room loop in `generate_schedule`: build the potential
`ScheduleResult` for `(timeslot, room)` and keep it if it satisfies the
constraints and strictly beats the best score so far. -/
def considerRoom (sched : List ScheduleResult) (student : Student) (session : ExamSession)
    (selected : List (Examiner × ℚ)) (timeslot : TimeSlot)
    (acc : ℚ × Option ScheduleResult) (room : Room) : ℚ × Option ScheduleResult :=
  let room_score := evaluate_room_suitability room student
  let examiner_ids := selected.map (fun p => p.1.id)
  let examiner_score := (selected.map (fun p => p.2)).sum / (selected.length : ℚ)
  let combined_score := examiner_score * 0.7 + room_score * 0.3
  let potential_result : ScheduleResult :=
    { exam_id := session.id
      student_name := student.name
      timeslot_id := timeslot.id
      room_id := room.id
      assigned_examiners := examiner_ids
      total_score := combined_score
      criteria_scores :=
        [("examiner_quality", examiner_score), ("room_suitability", room_score),
         ("combined_score", combined_score)] }
  if check_scheduling_constraints sched potential_result = true ∧ acc.1 < combined_score then
    (combined_score, some potential_result)
  else acc

/-- The body of the timeslot loop in `generate_schedule`.  The extra skip for
`selected = []` (possible only when `required_examiners ≤ 0`) mirrors the
source exactly: there `np.mean([])` is NaN, every comparison `NaN > best`
is false, and so an empty selection can never update the best candidate. -/
def processTimeslot (scorer : Scorer) (rooms : List Room) (criteria : List Criteria)
    (method : String) (student : Student) (session : ExamSession)
    (sched : List ScheduleResult) (examiners : List Examiner)
    (acc : Except String (ℚ × Option ScheduleResult)) (timeslot : TimeSlot) :
    Except String (ℚ × Option ScheduleResult) :=
  match acc with
  | .error e => .error e
  | .ok best =>
    match select_best_examiners scorer student examiners timeslot.id
        session.required_examiners criteria method with
    | .error e => .error e
    | .ok selected =>
      if (selected.length : Int) < session.required_examiners ∨ selected = [] then .ok best
      else .ok (rooms.foldl (considerRoom sched student session selected timeslot) best)

/-- The body of the session loop in `generate_schedule`. -/
def processSession (scorer : Scorer) (students : List Student) (rooms : List Room)
    (timeslots : List TimeSlot) (criteria : List Criteria) (method : String)
    (acc : Except (String × AllocState) AllocState) (session : ExamSession) :
    Except (String × AllocState) AllocState :=
  match acc with
  | .error e => .error e
  | .ok st =>
    match studentLookup students session.student_id with
    | none => .ok { st with infeasible_exams := st.infeasible_exams ++ [session.id] }
    | some student =>
      match timeslots.foldl
          (processTimeslot scorer rooms criteria method student session st.schedule st.examiners)
          (.ok ((-1 : ℚ), none)) with
      | .error e => .error (e, st)
      | .ok (best_score, best_schedule) =>
        match best_schedule with
        | some best =>
          .ok { schedule := st.schedule ++ [best]
                infeasible_exams := st.infeasible_exams
                total_satisfaction := st.total_satisfaction + best_score
                examiners := bumpWorkloads st.examiners best.assigned_examiners }
        | none => .ok { st with infeasible_exams := st.infeasible_exams ++ [session.id] }

/-- `generate_schedule`.  Sessions are processed in stable descending
priority order; the error of an unsupported method carries the internal
state at the moment of the raise (whose examiner list is the caller-visible
part).  On success the final examiner list is returned next to the
solution.  (The local `room_lookup` dict of the source is never used and is
omitted.) -/
def generate_schedule (scorer : Scorer) (students : List Student) (examiners : List Examiner)
    (rooms : List Room) (timeslots : List TimeSlot) (exam_sessions : List ExamSession)
    (criteria : List Criteria) (method : String) :
    Except (String × AllocState) (DSSSolution × List Examiner) :=
  let sorted_sessions := sortByDesc (fun s => s.priority) exam_sessions
  match sorted_sessions.foldl (processSession scorer students rooms timeslots criteria method)
      (.ok ⟨[], [], 0, examiners⟩) with
  | .error e => .error e
  | .ok st =>
    let avg_satisfaction : ℚ :=
      if st.schedule ≠ [] then st.total_satisfaction / (st.schedule.length : ℚ) else 0
    match evaluate_alternatives scorer [List.replicate criteria.length 1] criteria method with
    | .error e => .error (e, st)
    | .ok (_, criteria_weights) =>
      .ok ({ schedule := st.schedule
             method_used := method
             total_satisfaction := avg_satisfaction
             criteria_weights := criteria_weights
             infeasible_exams := st.infeasible_exams }, st.examiners)

/-- `analyze_schedule_quality`.  The returned `Dict[str, float]` is a list of
key/value pairs in insertion order; note the early return for an empty
schedule. -/
noncomputable def analyze_schedule_quality (sol : DSSSolution) : List (String × ℝ) :=
  if sol.schedule = [] then [("overall_quality", 0)]
  else
    let scores : List ℚ := sol.schedule.map (fun r => r.total_score)
    let meanQ : ℚ := scores.sum / (scores.length : ℚ)
    [("overall_quality", (sol.total_satisfaction : ℝ)),
     ("average_score", (meanQ : ℝ)),
     ("min_score", (qMin scores : ℝ)),
     ("max_score", (qMax scores : ℝ)),
     ("score_std", Real.sqrt ((scores.map (fun s => ((s : ℝ) - (meanQ : ℝ)) ^ 2)).sum / (scores.length : ℝ))),
     ("scheduled_exams", (sol.schedule.length : ℝ)),
     ("infeasible_exams", (sol.infeasible_exams.length : ℝ)),
     ("success_rate", (sol.schedule.length : ℝ) / ((sol.schedule.length : ℝ) + (sol.infeasible_exams.length : ℝ)))]

/-! ### `mcdm_methods.AHPMethod` (consistency-ratio part)

`calculate_weights` calls `np.linalg.eig` and takes the eigenvalue with the
largest real part.  That dominant eigenvalue is modelled mathematically as
the supremum of the real parts of the complex spectrum.  The subsequent
scalar arithmetic is numpy-float arithmetic, where a division by zero yields
a non-finite value (NaN or ±inf) instead of a number; `fdiv` marks that case
with `none`.  (The weight-vector half of `calculate_weights` is not needed by
any claim and is not modelled.) -/

/-- numpy scalar division, `none` marking the non-finite result of dividing
by zero. -/
noncomputable def fdiv (a b : ℝ) : Option ℝ := if b = 0 then none else some (a / b)

/-- The `random_index` table of `AHPMethod.__init__`, with the default
`1.49` of `self.random_index.get(n, 1.49)`. -/
noncomputable def random_index (n : ℕ) : ℝ :=
  if n = 1 then 0 else if n = 2 then 0 else if n = 3 then 0.58 else if n = 4 then 0.90
  else if n = 5 then 1.12 else if n = 6 then 1.24 else if n = 7 then 1.32
  else if n = 8 then 1.41 else if n = 9 then 1.45 else if n = 10 then 1.49 else 1.49

/-- The dominant eigenvalue picked in `calculate_weights`
(`eigenvalues[np.argmax(eigenvalues.real)].real`): the largest real part in
the complex spectrum. -/
noncomputable def dominant_eigenvalue_re {n : ℕ} (M : Matrix (Fin n) (Fin n) ℝ) : ℝ :=
  sSup (Set.image Complex.re (spectrum ℂ (M.map (fun x => (x : ℂ)))))

/-- The consistency-ratio computation of `calculate_weights`:
`consistency_index = (max_eigenvalue - n) / (n - 1)` followed by
`consistency_ratio = consistency_index / random_index.get(n, 1.49)`. -/
noncomputable def ahp_consistency_ratio (n : ℕ) (M : Matrix (Fin n) (Fin n) ℝ) : Option ℝ :=
  (fdiv (dominant_eigenvalue_re M - (n : ℝ)) ((n : ℝ) - 1)).bind
    (fun consistency_index => fdiv consistency_index (random_index n))

/-- The n-by-n all-ones pairwise comparison matrix of claim C4. -/
def allOnes (n : ℕ) : Matrix (Fin n) (Fin n) ℝ := Matrix.of (fun _ _ => (1 : ℝ))

/-- Equality of two examiners in every field except the workload counter
(the frame part of claim C9). -/
def sameExceptWorkload (a b : Examiner) : Prop :=
  a.id = b.id ∧ a.name = b.name ∧ a.title = b.title ∧ a.expertise = b.expertise ∧
  a.experience_years = b.experience_years ∧ a.availability_score = b.availability_score ∧
  a.competency_score = b.competency_score ∧ a.available_timeslots = b.available_timeslots

/-! ### Concrete fixtures used by witnesses and counterexamples -/

/-- A scorer instantiation for theorems quantified over the abstract TOPSIS
scorer (its value is irrelevant on SAW runs). -/
def zeroScorer : Scorer := fun _ _ _ => []

/-- Witness fixture: two students with distinct supervisors. -/
def wsStudents : List Student :=
  [ ⟨1, "alice", "001", "t1", "ai", 10, 3, 4, []⟩,
    ⟨2, "bob", "002", "t2", "logic", 20, 3, 4, []⟩ ]

/-- Witness fixture: six examiners (distinct ids, nonzero workloads), all
available at timeslot 100. -/
def wsExaminers : List Examiner :=
  [ ⟨10, "sup1", "dr", ["ai"], 5, 1, 3, 4, [100]⟩,
    ⟨11, "r11", "dr", ["ai"], 4, 2, 3, 4, [100]⟩,
    ⟨12, "r12", "dr", ["ai"], 3, 3, 3, 4, [100]⟩,
    ⟨20, "sup2", "dr", ["logic"], 5, 4, 3, 4, [100]⟩,
    ⟨21, "r21", "dr", ["logic"], 4, 5, 3, 4, [100]⟩,
    ⟨22, "r22", "dr", ["logic"], 3, 6, 3, 4, [100]⟩ ]

/-- Witness fixture: two rooms. -/
def wsRooms : List Room :=
  [ ⟨1, "ra", 20, [], "b", 5⟩, ⟨2, "rb", 10, [], "b", 3⟩ ]

/-- Witness fixture: one timeslot. -/
def wsTimeslots : List TimeSlot := [⟨100, "mon", "08:00", "10:00", "m"⟩]

/-- Witness fixture: one exam session per student, distinct priorities. -/
def wsSessions : List ExamSession :=
  [ ⟨1, 1, 120, 3, 1⟩, ⟨2, 2, 120, 3, 0⟩ ]

/-- The witness allocator run (SAW, default criteria). -/
def wsRun : Except (String × AllocState) (DSSSolution × List Examiner) :=
  generate_schedule zeroScorer wsStudents wsExaminers wsRooms wsTimeslots wsSessions
    default_criteria "SAW"

/-- Counterexample fixture for C5: the first session (priority 1) names a
missing student, the second session reaches the scoring engine. -/
def c5Sessions : List ExamSession :=
  [ ⟨1, 99, 120, 3, 1⟩, ⟨2, 1, 120, 1, 0⟩ ]

/-- Counterexample fixture for C5: the supervisor and one regular examiner,
so that the second session builds a nonempty decision matrix. -/
def c5Examiners : List Examiner :=
  [ ⟨10, "sup1", "dr", ["ai"], 5, 1, 3, 4, [100]⟩,
    ⟨11, "r11", "dr", ["ai"], 4, 2, 3, 4, [100]⟩ ]

/-- The C5 counterexample run: an unsupported method name. -/
def c5Run : Except (String × AllocState) (DSSSolution × List Examiner) :=
  generate_schedule zeroScorer [⟨1, "alice", "001", "t1", "ai", 10, 3, 4, []⟩]
    c5Examiners wsRooms wsTimeslots c5Sessions default_criteria "INVALID"

/-- The solution computed by the witness run (checked below by kernel
reduction). -/
def wsSol : DSSSolution :=
  { schedule :=
      [ { exam_id := 1, student_name := "alice", timeslot_id := 100, room_id := 1,
          assigned_examiners := [10, 11, 12], total_score := 891/1000,
          criteria_scores := [("examiner_quality", 93/100), ("room_suitability", 4/5),
                              ("combined_score", 891/1000)] },
        { exam_id := 2, student_name := "bob", timeslot_id := 100, room_id := 2,
          assigned_examiners := [20, 21, 22], total_score := 2467/3000,
          criteria_scores := [("examiner_quality", 53/60), ("room_suitability", 17/25),
                              ("combined_score", 2467/3000)] } ],
    method_used := "SAW",
    total_satisfaction := 257/300,
    criteria_weights := [("expertise_match", 3/10), ("competency_score", 1/4),
                         ("availability_score", 1/5), ("workload", 3/20),
                         ("experience_years", 1/10)],
    infeasible_exams := [] }

/-- The examiner list after the witness run: every assigned examiner's
workload counter is up by one. -/
def wsFinalExaminers : List Examiner :=
  [ ⟨10, "sup1", "dr", ["ai"], 5, 2, 3, 4, [100]⟩,
    ⟨11, "r11", "dr", ["ai"], 4, 3, 3, 4, [100]⟩,
    ⟨12, "r12", "dr", ["ai"], 3, 4, 3, 4, [100]⟩,
    ⟨20, "sup2", "dr", ["logic"], 5, 5, 3, 4, [100]⟩,
    ⟨21, "r21", "dr", ["logic"], 4, 6, 3, 4, [100]⟩,
    ⟨22, "r22", "dr", ["logic"], 3, 7, 3, 4, [100]⟩ ]

/-- Default examiner used with `List.getD` in index-based statements. -/
def defaultExaminer : Examiner := ⟨0, "", "", [], 0, 0, 0, 0, []⟩

/-- What is true of every candidate `ScheduleResult` that the timeslot/room
sweep of `generate_schedule` can hand to the commit step for `session`:
it passed the constraint check against the schedule so far, carries the
session's id and the student's name, and its examiner ids come from a
nonempty, large-enough selection produced by `select_best_examiners` at one
of the timeslots. -/
def CandidateOK (scorer : Scorer) (student : Student) (session : ExamSession)
    (criteria : List Criteria) (method : String) (sched : List ScheduleResult)
    (exs : List Examiner) (timeslots : List TimeSlot) (r : ScheduleResult) : Prop :=
  check_scheduling_constraints sched r = true ∧
  r.exam_id = session.id ∧
  r.student_name = student.name ∧
  ∃ t ∈ timeslots, r.timeslot_id = t.id ∧
    ∃ sel, select_best_examiners scorer student exs t.id session.required_examiners
        criteria method = .ok sel ∧
      sel ≠ [] ∧ session.required_examiners ≤ (sel.length : Int) ∧
      r.assigned_examiners = sel.map (fun p => p.1.id)

/-- Default schedule result used with `List.getD` in index-based statements. -/
def defaultResult : ScheduleResult := ⟨0, "", 0, 0, [], 0, []⟩

/-- The first committed assignment of the witness run. -/
def wsFirstResult : ScheduleResult :=
  { exam_id := 1, student_name := "alice", timeslot_id := 100, room_id := 1,
    assigned_examiners := [10, 11, 12], total_score := 891/1000,
    criteria_scores := [("examiner_quality", 93/100), ("room_suitability", 4/5),
                        ("combined_score", 891/1000)] }

/-- Witness fixture for C10: a session whose student id (99) matches no
student. -/
def c10Sessions : List ExamSession := [⟨5, 99, 120, 3, 1⟩]

/-! ## Helper lemmas -/

theorem foldl_max_bounds (l : List ℚ) (a : ℚ) :
    a ≤ l.foldl max a ∧ ∀ x ∈ l, x ≤ l.foldl max a := by
  induction l generalizing a with
  | nil => exact ⟨le_refl a, by simp⟩
  | cons y ys ih =>
    refine ⟨le_trans (le_max_left a y) (ih (max a y)).1, ?_⟩
    intro x hx
    rcases List.mem_cons.1 hx with rfl | hx
    · exact le_trans (le_max_right a x) (ih (max a x)).1
    · exact (ih (max a y)).2 x hx

theorem foldl_min_bounds (l : List ℚ) (a : ℚ) :
    l.foldl min a ≤ a ∧ ∀ x ∈ l, l.foldl min a ≤ x := by
  induction l generalizing a with
  | nil => exact ⟨le_refl a, by simp⟩
  | cons y ys ih =>
    refine ⟨le_trans (ih (min a y)).1 (min_le_left a y), ?_⟩
    intro x hx
    rcases List.mem_cons.1 hx with rfl | hx
    · exact le_trans (ih (min a x)).1 (min_le_right a x)
    · exact (ih (min a y)).2 x hx

theorem le_qMax {l : List ℚ} {x : ℚ} (h : x ∈ l) : x ≤ qMax l := by
  cases l with
  | nil => cases h
  | cons y ys =>
    rcases List.mem_cons.1 h with rfl | h
    · exact (foldl_max_bounds ys x).1
    · exact (foldl_max_bounds ys y).2 x h

theorem qMin_le {l : List ℚ} {x : ℚ} (h : x ∈ l) : qMin l ≤ x := by
  cases l with
  | nil => cases h
  | cons y ys =>
    rcases List.mem_cons.1 h with rfl | h
    · exact (foldl_min_bounds ys x).1
    · exact (foldl_min_bounds ys y).2 x h

theorem foldl_min_mem (l : List ℚ) (a : ℚ) : l.foldl min a = a ∨ l.foldl min a ∈ l := by
  induction l generalizing a with
  | nil => exact Or.inl rfl
  | cons y ys ih =>
    rcases ih (min a y) with h | h
    · rcases min_choice a y with hc | hc
      · exact Or.inl (by rw [List.foldl_cons, h, hc])
      · exact Or.inr (by rw [List.foldl_cons, h, hc]; exact List.mem_cons_self y ys)
    · exact Or.inr (List.mem_cons_of_mem y h)

theorem qMin_mem {l : List ℚ} (h : l ≠ []) : qMin l ∈ l := by
  cases l with
  | nil => exact absurd rfl h
  | cons y ys =>
    rcases foldl_min_mem ys y with he | he
    · rw [qMin, he]; exact List.mem_cons_self y ys
    · rw [qMin]; exact List.mem_cons_of_mem y he

theorem column_nonneg {m : List (List ℚ)} {j : ℕ}
    (hm : ∀ row ∈ m, ∀ x ∈ row, 0 ≤ x) : ∀ x ∈ column m j, 0 ≤ x := by
  intro x hx
  rcases List.mem_map.1 hx with ⟨row, hrow, rfl⟩
  by_cases hj : j < row.length
  · rw [List.getD_eq_getElem row 0 hj]
    exact hm row hrow _ (List.getElem_mem hj)
  · rw [List.getD_eq_default row 0 (le_of_not_lt hj)]

/-- Each entry of the SAW-normalized matrix lies in `[0, 1]` (for nonnegative
columns, with no all-zero cost column). -/
theorem sawNormEntry_unit {col : List ℚ} {t : CriteriaType} {v : ℚ}
    (hc : ∀ x ∈ col, 0 ≤ x) (hv : v ∈ col)
    (hcost : t = .cost → ∃ x ∈ col, x ≠ 0) :
    0 ≤ sawNormEntry col t v ∧ sawNormEntry col t v ≤ 1 := by
  have hv0 : 0 ≤ v := hc v hv
  have hvmax : v ≤ qMax col := le_qMax hv
  cases t with
  | benefit =>
    rw [sawNormEntry]
    by_cases hmax : qMax col ≠ 0
    · have hpos : 0 < qMax col := lt_of_le_of_ne (le_trans hv0 hvmax) (Ne.symm hmax)
      rw [if_pos hmax]
      exact ⟨div_nonneg hv0 (le_of_lt hpos), (div_le_one hpos).2 hvmax⟩
    · rw [if_neg hmax]
      push_neg at hmax
      exact ⟨hv0, le_trans hvmax (by rw [hmax]; norm_num)⟩
  | cost =>
    rw [sawNormEntry]
    by_cases hall : col.all (fun x => decide (x ≠ 0)) = true
    · rw [if_pos hall]
      have hvne : v ≠ 0 := by
        have := List.all_eq_true.1 hall v hv
        simpa using this
      have hvpos : 0 < v := lt_of_le_of_ne hv0 (Ne.symm hvne)
      have hminle : qMin col ≤ v := qMin_le hv
      have hminnn : 0 ≤ qMin col := hc _ (qMin_mem (List.ne_nil_of_mem hv))
      exact ⟨div_nonneg hminnn (le_of_lt hvpos), (div_le_one hvpos).2 hminle⟩
    · rw [if_neg hall]
      rcases hcost rfl with ⟨x, hxmem, hxne⟩
      have hxpos : 0 < x := lt_of_le_of_ne (hc x hxmem) (Ne.symm hxne)
      have hmaxpos : 0 < qMax col := lt_of_lt_of_le hxpos (le_qMax hxmem)
      have h1 : v / qMax col ≤ 1 := (div_le_one hmaxpos).2 hvmax
      have h0 : 0 ≤ v / qMax col := div_nonneg hv0 (le_of_lt hmaxpos)
      constructor <;> linarith

/-- Dot product of a `[0,1]`-valued list with a nonnegative weight list is
between `0` and the sum of the weights. -/
theorem dot_unit_bounds : ∀ (xs ws : List ℚ),
    (∀ x ∈ xs, 0 ≤ x ∧ x ≤ 1) → (∀ w ∈ ws, 0 ≤ w) →
    0 ≤ (List.zipWith (fun a b => a * b) xs ws).sum ∧
    (List.zipWith (fun a b => a * b) xs ws).sum ≤ ws.sum := by
  intro xs
  induction xs with
  | nil =>
    intro ws _ hw
    simp only [List.zipWith_nil_left, List.sum_nil]
    exact ⟨le_refl 0, List.sum_nonneg hw⟩
  | cons x xs ih =>
    intro ws hx hw
    cases ws with
    | nil => simp
    | cons w ws =>
      have hx0 := hx x (List.mem_cons_self x xs)
      have hw0 := hw w (List.mem_cons_self w ws)
      have ihr := ih ws (fun y hy => hx y (List.mem_cons_of_mem x hy))
        (fun y hy => hw y (List.mem_cons_of_mem w hy))
      simp only [List.zipWith_cons_cons, List.sum_cons]
      constructor
      · have : 0 ≤ x * w := mul_nonneg hx0.1 hw0
        linarith [ihr.1]
      · have : x * w ≤ w := by
          calc x * w ≤ 1 * w := mul_le_mul_of_nonneg_right hx0.2 hw0
          _ = w := one_mul w
        linarith [ihr.2]

/-- Claim C3, the code's divergence from the specified analyzer contract
(spec section 4.8): whenever the committed schedule is empty the code returns
only `{"overall_quality": 0.0}` — no success-rate (nor mean/min/max/std/count)
entry at all.  This contradicts the contract both for zero total items (where
the spec defines the success rate as `0` rather than dividing by zero) and
for zero committed with infeasible items present, where the formula
`committed / (committed + infeasible)` is a well-defined `0` and no
division-by-zero guard is even needed. -/
theorem c3_counterexample :
    analyze_schedule_quality ⟨[], "SAW", 0, [], []⟩ = [("overall_quality", 0)] ∧
    List.lookup "success_rate" (analyze_schedule_quality ⟨[], "SAW", 0, [], []⟩) = none ∧
    analyze_schedule_quality ⟨[], "SAW", 0, [], [7]⟩ = [("overall_quality", 0)] ∧
    List.lookup "success_rate" (analyze_schedule_quality ⟨[], "SAW", 0, [], [7]⟩) = none := by
  exact ⟨rfl, rfl, rfl, rfl⟩

/-- Claim C3, the code's behavior on the cases the early return does not
eat: for every `Solution` with at least one committed assignment, the
analyzer reports the mean, min, max and population standard deviation of the
committed scores, the committed and infeasible counts, and a success rate
`committed / (committed + infeasible)`, exactly as the contract specifies. -/
theorem c3_analyzer_nonempty (sol : DSSSolution) (h : sol.schedule ≠ []) :
    List.lookup "average_score" (analyze_schedule_quality sol) =
      some (((sol.schedule.map (fun r => r.total_score)).sum /
        ((sol.schedule.map (fun r => r.total_score)).length : ℚ) : ℚ) : ℝ) ∧
    List.lookup "min_score" (analyze_schedule_quality sol) =
      some ((qMin (sol.schedule.map (fun r => r.total_score)) : ℚ) : ℝ) ∧
    List.lookup "max_score" (analyze_schedule_quality sol) =
      some ((qMax (sol.schedule.map (fun r => r.total_score)) : ℚ) : ℝ) ∧
    List.lookup "score_std" (analyze_schedule_quality sol) =
      some (Real.sqrt (((sol.schedule.map (fun r => r.total_score)).map
        (fun s => ((s : ℝ) - (((sol.schedule.map (fun r => r.total_score)).sum /
          ((sol.schedule.map (fun r => r.total_score)).length : ℚ) : ℚ) : ℝ)) ^ 2)).sum /
        ((sol.schedule.map (fun r => r.total_score)).length : ℝ))) ∧
    List.lookup "scheduled_exams" (analyze_schedule_quality sol) =
      some ((sol.schedule.length : ℝ)) ∧
    List.lookup "infeasible_exams" (analyze_schedule_quality sol) =
      some ((sol.infeasible_exams.length : ℝ)) ∧
    List.lookup "success_rate" (analyze_schedule_quality sol) =
      some ((sol.schedule.length : ℝ) /
        ((sol.schedule.length : ℝ) + (sol.infeasible_exams.length : ℝ))) := by
  unfold analyze_schedule_quality
  rw [if_neg h]
  exact ⟨rfl, rfl, rfl, rfl, rfl, rfl, rfl⟩

/-- Witness for C3's nonempty-branch theorem at a one-assignment,
one-infeasible solution. -/
theorem c3_witness :
    (([⟨1, "a", 1, 1, [10], 1/2, []⟩] : List ScheduleResult) ≠ []) ∧
    List.lookup "success_rate" (analyze_schedule_quality
        ⟨[⟨1, "a", 1, 1, [10], 1/2, []⟩], "SAW", 1/2, [], [7]⟩) =
      some (((([⟨1, "a", 1, 1, [10], (1 : ℚ)/2, []⟩] : List ScheduleResult)).length : ℝ) /
        (((([⟨1, "a", 1, 1, [10], (1 : ℚ)/2, []⟩] : List ScheduleResult)).length : ℝ) +
          (([7] : List Int).length : ℝ))) :=
  ⟨by simp,
    (c3_analyzer_nonempty ⟨[⟨1, "a", 1, 1, [10], 1/2, []⟩], "SAW", 1/2, [], [7]⟩
      (by simp)).2.2.2.2.2.2⟩

/-- Claim C8: the allocator is a pure function of its arguments — running it
twice on freshly-copied (value-equal) examiner inputs and otherwise identical
arguments yields identical results.  Statelessness across runs is captured by
the embedding itself: the only mutation of the source (the workload counter)
is threaded explicitly, so a fresh copy of the inputs is literally the same
value. -/
theorem c8_idempotence (scorer : Scorer) (students : List Student)
    (ex1 ex2 : List Examiner) (rooms : List Room) (timeslots : List TimeSlot)
    (sessions : List ExamSession) (criteria : List Criteria) (method : String)
    (hcopy : ex1 = ex2) :
    generate_schedule scorer students ex1 rooms timeslots sessions criteria method =
    generate_schedule scorer students ex2 rooms timeslots sessions criteria method := by
  rw [hcopy]

/-- Witness for C8 on the witness fixture. -/
theorem c8_witness :
    generate_schedule zeroScorer wsStudents wsExaminers wsRooms wsTimeslots wsSessions
      default_criteria "SAW" =
    generate_schedule zeroScorer wsStudents wsExaminers wsRooms wsTimeslots wsSessions
      default_criteria "SAW" :=
  c8_idempotence zeroScorer wsStudents wsExaminers wsExaminers wsRooms wsTimeslots
    wsSessions default_criteria "SAW" rfl

/-! ## Allocator helper lemmas -/

theorem insertByDesc_perm {α : Type} (key : α → ℚ) (l : List α) (x : α) :
    (insertByDesc key l x).Perm (x :: l) := by
  induction l with
  | nil => exact List.Perm.refl _
  | cons y ys ih =>
    rw [insertByDesc]
    by_cases h : key y < key x
    · rw [if_pos h]
    · rw [if_neg h]
      exact (List.Perm.cons y ih).trans (List.Perm.swap x y ys)

theorem foldl_insertByDesc_perm {α : Type} (key : α → ℚ) :
    ∀ (l acc : List α), (l.foldl (insertByDesc key) acc).Perm (acc ++ l) := by
  intro l
  induction l with
  | nil => simp
  | cons x xs ih =>
    intro acc
    rw [List.foldl_cons]
    refine (ih (insertByDesc key acc x)).trans ?_
    have h1 : (insertByDesc key acc x ++ xs).Perm ((x :: acc) ++ xs) :=
      (insertByDesc_perm key acc x).append_right xs
    refine h1.trans ?_
    simp only [List.cons_append]
    exact List.perm_middle.symm

theorem sortByDesc_perm {α : Type} (key : α → ℚ) (l : List α) :
    (sortByDesc key l).Perm l := by
  simpa [sortByDesc] using foldl_insertByDesc_perm key l []

theorem pySliceTo_eq_take {α : Type} (k : Int) (l : List α) :
    ∃ n, pySliceTo k l = l.take n := by
  rw [pySliceTo]
  by_cases h : 0 ≤ k
  · rw [if_pos h]; exact ⟨k.toNat, rfl⟩
  · rw [if_neg h]; exact ⟨l.length - (-k).toNat, rfl⟩

theorem map_fst_zip_sublist {α β : Type} :
    ∀ (l₁ : List α) (l₂ : List β), ((l₁.zip l₂).map Prod.fst).Sublist l₁ := by
  intro l₁
  induction l₁ with
  | nil => intro l₂; simp
  | cons a l₁ ih =>
    intro l₂
    cases l₂ with
    | nil => simp
    | cons b l₂ =>
      simpa using List.Sublist.cons₂ a (ih l₂)

/-- Unfolding characterization of `check_scheduling_constraints`. -/
theorem check_iff (sched : List ScheduleResult) (r : ScheduleResult) :
    check_scheduling_constraints sched r = true ↔
    ∀ e ∈ sched, e.timeslot_id = r.timeslot_id →
      e.room_id ≠ r.room_id ∧ ∀ x ∈ e.assigned_examiners, x ∉ r.assigned_examiners := by
  induction sched with
  | nil => simp [check_scheduling_constraints]
  | cons e rest ih =>
    rw [check_scheduling_constraints]
    by_cases h1 : e.timeslot_id = r.timeslot_id
    · rw [if_pos h1]
      by_cases h2 : e.room_id = r.room_id
      · rw [if_pos h2]
        simp only [Bool.false_eq_true, false_iff]
        intro hall
        exact (hall e (List.mem_cons_self e rest) h1).1 h2
      · rw [if_neg h2]
        by_cases h3 : e.assigned_examiners.any
            (fun x => r.assigned_examiners.contains x) = true
        · rw [if_pos h3]
          simp only [Bool.false_eq_true, false_iff]
          intro hall
          rcases List.any_eq_true.1 h3 with ⟨x, hx, hc⟩
          exact (hall e (List.mem_cons_self e rest) h1).2 x hx (by simpa using hc)
        · rw [if_neg h3]
          rw [ih]
          constructor
          · intro hrest e' he' ht
            rcases List.mem_cons.1 he' with rfl | he'
            · refine ⟨h2, fun x hx hmem => h3 ?_⟩
              exact List.any_eq_true.2 ⟨x, hx, by simpa using hmem⟩
            · exact hrest e' he' ht
          · intro hall e' he' ht
            exact hall e' (List.mem_cons_of_mem e he') ht
    · rw [if_neg h1]
      rw [ih]
      constructor
      · intro hrest e' he' ht
        rcases List.mem_cons.1 he' with rfl | he'
        · exact absurd ht h1
        · exact hrest e' he' ht
      · intro hall e' he' ht
        exact hall e' (List.mem_cons_of_mem e he') ht

/-- Inversion of a nonempty successful `select_best_examiners`: the head is
the supervisor with the fixed score 0.9, and the tail is drawn (without
creating new elements, up to permutation and selection) from the regular
examiners available at the timeslot. -/
theorem select_ok_inv (scorer : Scorer) (student : Student) (exs : List Examiner)
    (tid req : Int) (criteria : List Criteria) (method : String)
    (sel : List (Examiner × ℚ))
    (h : select_best_examiners scorer student exs tid req criteria method = .ok sel)
    (hne : sel ≠ []) :
    ∃ sup rest, sel = (sup, (0.9 : ℚ)) :: rest ∧
      sup.id = student.supervisor_id ∧ sup ∈ exs ∧
      (∀ p ∈ rest, p.1 ∈ exs ∧ p.1.id ≠ student.supervisor_id) ∧
      (rest.map (fun p => p.1.id)).Subperm
        (((exs.filter (fun e => e.available_timeslots.contains tid)).filter
          (fun e => e.id != student.supervisor_id)).map (fun e => e.id)) := by
  simp only [select_best_examiners] at h
  by_cases hlen : ((exs.filter (fun e => e.available_timeslots.contains tid)).length : Int) < req
  · rw [if_pos hlen] at h
    injection h with h'
    exact absurd h'.symm hne
  rw [if_neg hlen] at h
  rcases hf : (exs.filter (fun e => e.available_timeslots.contains tid)).find?
      (fun e => e.id == student.supervisor_id) with _ | sup
  all_goals rw [hf] at h; simp only [] at h
  · injection h with h'
    exact absurd h'.symm hne
  by_cases hmat : ((exs.filter (fun e => e.available_timeslots.contains tid)).filter
      (fun e => e.id != student.supervisor_id)).map
        (fun ex => criteria.map
          (fun c => criterionValue c (evaluate_examiner_for_student ex student tid) ex)) = []
  · rw [if_pos hmat] at h
    injection h with h'
    exact absurd h'.symm hne
  rw [if_neg hmat] at h
  rcases hev : evaluate_alternatives scorer
      (((exs.filter (fun e => e.available_timeslots.contains tid)).filter
          (fun e => e.id != student.supervisor_id)).map
        (fun ex => criteria.map
          (fun c => criterionValue c (evaluate_examiner_for_student ex student tid) ex)))
      criteria method with e | p
  all_goals rw [hev] at h; simp only [] at h
  · cases h
  rcases p with ⟨scores, w⟩
  injection h with h'
  dsimp only [] at h'
  refine ⟨sup, _, h'.symm, ?_, ?_, ?_, ?_⟩
  · have hb := List.find?_some hf
    simp only [] at hb
    exact eq_of_beq hb
  · exact (List.mem_filter.1 (List.mem_of_find?_eq_some hf)).1
  · intro p hp
    obtain ⟨pe, ps⟩ := p
    have hsorted : (pe, ps) ∈ sortByDesc (fun q => q.2)
        (((exs.filter (fun e => e.available_timeslots.contains tid)).filter
          (fun e => e.id != student.supervisor_id)).zip scores) := by
      rcases pySliceTo_eq_take (req - 1) (sortByDesc (fun q => q.2)
        (((exs.filter (fun e => e.available_timeslots.contains tid)).filter
          (fun e => e.id != student.supervisor_id)).zip scores)) with ⟨n, hn⟩
      rw [hn] at hp
      exact List.take_subset n _ hp
    have hzip : (pe, ps) ∈ ((exs.filter (fun e => e.available_timeslots.contains tid)).filter
        (fun e => e.id != student.supervisor_id)).zip scores :=
      ((sortByDesc_perm _ _).mem_iff).1 hsorted
    have hreg : pe ∈ (exs.filter (fun e => e.available_timeslots.contains tid)).filter
        (fun e => e.id != student.supervisor_id) := (List.of_mem_zip hzip).1
    have hregm := List.mem_filter.1 hreg
    refine ⟨(List.mem_filter.1 hregm.1).1, ?_⟩
    simpa using hregm.2
  · rcases pySliceTo_eq_take (req - 1) (sortByDesc (fun q => q.2)
      (((exs.filter (fun e => e.available_timeslots.contains tid)).filter
        (fun e => e.id != student.supervisor_id)).zip scores)) with ⟨n, hn⟩
    rw [hn]
    have s1 : ((List.take n (sortByDesc (fun q => q.2)
        (((exs.filter (fun e => e.available_timeslots.contains tid)).filter
          (fun e => e.id != student.supervisor_id)).zip scores))).map
        (fun p => p.1.id)).Sublist
        ((sortByDesc (fun q => q.2)
          (((exs.filter (fun e => e.available_timeslots.contains tid)).filter
            (fun e => e.id != student.supervisor_id)).zip scores)).map
          (fun p => p.1.id)) :=
      (List.take_sublist n _).map _
    have s2 : ((sortByDesc (fun q => q.2)
        (((exs.filter (fun e => e.available_timeslots.contains tid)).filter
          (fun e => e.id != student.supervisor_id)).zip scores)).map
        (fun p => p.1.id)).Perm
        ((((exs.filter (fun e => e.available_timeslots.contains tid)).filter
          (fun e => e.id != student.supervisor_id)).zip scores).map
          (fun p => p.1.id)) :=
      (sortByDesc_perm _ _).map _
    have s3 : ((((exs.filter (fun e => e.available_timeslots.contains tid)).filter
        (fun e => e.id != student.supervisor_id)).zip scores).map
        (fun p => p.1.id)).Sublist
        (((exs.filter (fun e => e.available_timeslots.contains tid)).filter
          (fun e => e.id != student.supervisor_id)).map (fun e => e.id)) := by
      have hcomp : ((((exs.filter (fun e => e.available_timeslots.contains tid)).filter
          (fun e => e.id != student.supervisor_id)).zip scores).map
          (fun p => p.1.id)) =
          ((((exs.filter (fun e => e.available_timeslots.contains tid)).filter
            (fun e => e.id != student.supervisor_id)).zip scores).map Prod.fst).map
            (fun e => e.id) := by
        rw [List.map_map]
        rfl
      rw [hcomp]
      exact (map_fst_zip_sublist _ _).map _
    exact (s1.subperm).trans ((s2.subperm).trans s3.subperm)

/-- One `considerRoom` step either keeps the accumulator's candidate or
produces a fully-checked candidate for this timeslot. -/
theorem considerRoom_some (sched : List ScheduleResult) (student : Student)
    (session : ExamSession) (sel : List (Examiner × ℚ)) (timeslot : TimeSlot)
    (acc : ℚ × Option ScheduleResult) (room : Room) (r : ScheduleResult)
    (h : (considerRoom sched student session sel timeslot acc room).2 = some r) :
    acc.2 = some r ∨
    (check_scheduling_constraints sched r = true ∧ r.exam_id = session.id ∧
     r.student_name = student.name ∧ r.timeslot_id = timeslot.id ∧
     r.assigned_examiners = sel.map (fun p => p.1.id)) := by
  simp only [considerRoom] at h
  split at h
  · rename_i hcond
    right
    injection h with h2
    subst h2
    exact ⟨hcond.1, rfl, rfl, rfl, rfl⟩
  · exact Or.inl h

/-- The room sweep either keeps the incoming candidate or returns a
fully-checked candidate for this timeslot. -/
theorem roomsFold_some (sched : List ScheduleResult) (student : Student)
    (session : ExamSession) (sel : List (Examiner × ℚ)) (timeslot : TimeSlot) :
    ∀ (rooms : List Room) (acc : ℚ × Option ScheduleResult) (r : ScheduleResult),
      (rooms.foldl (considerRoom sched student session sel timeslot) acc).2 = some r →
      acc.2 = some r ∨
      (check_scheduling_constraints sched r = true ∧ r.exam_id = session.id ∧
       r.student_name = student.name ∧ r.timeslot_id = timeslot.id ∧
       r.assigned_examiners = sel.map (fun p => p.1.id)) := by
  intro rooms
  induction rooms with
  | nil => intro acc r h; exact Or.inl h
  | cons room rooms ih =>
    intro acc r h
    rw [List.foldl_cons] at h
    rcases ih _ r h with hacc | hprops
    · exact considerRoom_some sched student session sel timeslot acc room r hacc
    · exact Or.inr hprops

theorem tsFold_error (scorer : Scorer) (rooms : List Room) (criteria : List Criteria)
    (method : String) (student : Student) (session : ExamSession)
    (sched : List ScheduleResult) (exs : List Examiner) :
    ∀ (ts : List TimeSlot) (e : String),
      ts.foldl (processTimeslot scorer rooms criteria method student session sched exs)
        (.error e) = .error e := by
  intro ts e
  induction ts with
  | nil => rfl
  | cons t ts ih => rw [List.foldl_cons]; exact ih

/-- The timeslot sweep either keeps the incoming candidate or returns a
candidate satisfying `CandidateOK`. -/
theorem tsFold_some (scorer : Scorer) (rooms : List Room) (criteria : List Criteria)
    (method : String) (student : Student) (session : ExamSession)
    (sched : List ScheduleResult) (exs : List Examiner) (timeslots₀ : List TimeSlot) :
    ∀ (ts : List TimeSlot), (∀ t ∈ ts, t ∈ timeslots₀) →
    ∀ (acc : Except String (ℚ × Option ScheduleResult)) (b : ℚ)
      (o : Option ScheduleResult) (r : ScheduleResult),
      ts.foldl (processTimeslot scorer rooms criteria method student session sched exs) acc
        = .ok (b, o) →
      o = some r →
      (∃ b0 o0, acc = .ok (b0, o0) ∧ o0 = some r) ∨
      CandidateOK scorer student session criteria method sched exs timeslots₀ r := by
  intro ts
  induction ts with
  | nil =>
    intro _ acc b o r h hro
    exact Or.inl ⟨b, o, h, hro⟩
  | cons t ts ih =>
    intro hsub acc b o r h hro
    rw [List.foldl_cons] at h
    rcases ih (fun t' ht' => hsub t' (List.mem_cons_of_mem t ht'))
        (processTimeslot scorer rooms criteria method student session sched exs acc t)
        b o r h hro with ⟨b0, o0, hpt, ho0⟩ | hc
    · rcases acc with e | ⟨b1, o1⟩
      · rw [show processTimeslot scorer rooms criteria method student session sched exs
            (.error e) t = .error e from rfl] at hpt
        cases hpt
      · simp only [processTimeslot] at hpt
        rcases hsel : select_best_examiners scorer student exs t.id
            session.required_examiners criteria method with e | selected
        · rw [hsel] at hpt
          simp only [] at hpt
          cases hpt
        · rw [hsel] at hpt
          simp only [] at hpt
          by_cases hskip : ((selected.length : Int) < session.required_examiners ∨ selected = [])
          · rw [if_pos hskip] at hpt
            injection hpt with h2
            injection h2 with h2a h2b
            exact Or.inl ⟨b1, o1, rfl, by rw [h2b]; exact ho0⟩
          · rw [if_neg hskip] at hpt
            injection hpt with h2
            push_neg at hskip
            have hfold2 : (rooms.foldl (considerRoom sched student session selected t)
                (b1, o1)).2 = some r := by rw [h2]; exact ho0
            rcases roomsFold_some sched student session selected t rooms (b1, o1) r hfold2 with
              ho1 | ⟨hchk, hexam, hname, htsid, hassigned⟩
            · exact Or.inl ⟨b1, o1, rfl, ho1⟩
            · exact Or.inr ⟨hchk, hexam, hname, t, hsub t (List.mem_cons_self t ts), htsid,
                selected, hsel, hskip.2, hskip.1, hassigned⟩
    · exact Or.inr hc

/-- Inversion of one session step ending in `ok`: either the session is
recorded as infeasible (missing student or no feasible combination), or a
`CandidateOK` result is committed: appended to the schedule, its score added
to the running total, and the workload of its assigned examiners bumped. -/
theorem processSession_step (scorer : Scorer) (students : List Student) (rooms : List Room)
    (timeslots : List TimeSlot) (criteria : List Criteria) (method : String)
    (st : AllocState) (session : ExamSession) (st' : AllocState)
    (h : processSession scorer students rooms timeslots criteria method (.ok st) session
      = .ok st') :
    (st' = { st with infeasible_exams := st.infeasible_exams ++ [session.id] }) ∨
    ∃ student best_score best,
      studentLookup students session.student_id = some student ∧
      st' = { schedule := st.schedule ++ [best],
              infeasible_exams := st.infeasible_exams,
              total_satisfaction := st.total_satisfaction + best_score,
              examiners := bumpWorkloads st.examiners best.assigned_examiners } ∧
      CandidateOK scorer student session criteria method st.schedule st.examiners
        timeslots best := by
  simp only [processSession] at h
  rcases hlk : studentLookup students session.student_id with _ | student
  · rw [hlk] at h
    simp only [] at h
    injection h with h'
    exact Or.inl h'.symm
  · rw [hlk] at h
    simp only [] at h
    rcases hts : timeslots.foldl
        (processTimeslot scorer rooms criteria method student session st.schedule st.examiners)
        (.ok ((-1 : ℚ), none)) with e | p
    · rw [hts] at h
      simp only [] at h
      cases h
    · rw [hts] at h
      simp only [] at h
      rcases p with ⟨bs, obest⟩
      rcases obest with _ | best
      · injection h with h'
        exact Or.inl h'.symm
      · injection h with h'
        right
        refine ⟨student, bs, best, rfl, h'.symm, ?_⟩
        rcases tsFold_some scorer rooms criteria method student session st.schedule
            st.examiners timeslots timeslots (fun t ht => ht) (.ok ((-1 : ℚ), none))
            bs (some best) best hts rfl with ⟨b0, o0, hacc, ho0⟩ | hc
        · injection hacc with hacc2
          injection hacc2 with hb ho
          rw [← ho] at ho0
          cases ho0
        · exact hc

theorem sessFold_error (scorer : Scorer) (students : List Student) (rooms : List Room)
    (timeslots : List TimeSlot) (criteria : List Criteria) (method : String) :
    ∀ (ss : List ExamSession) (e : String × AllocState),
      ss.foldl (processSession scorer students rooms timeslots criteria method)
        (.error e) = .error e := by
  intro ss e
  induction ss with
  | nil => rfl
  | cons s ss ih => rw [List.foldl_cons]; exact ih

/-- Generic invariant propagation along the session loop. -/
theorem sessFold_inv (scorer : Scorer) (students : List Student) (rooms : List Room)
    (timeslots : List TimeSlot) (criteria : List Criteria) (method : String)
    (sessions₀ : List ExamSession) (P : AllocState → Prop)
    (step : ∀ st session st', session ∈ sessions₀ → P st →
      processSession scorer students rooms timeslots criteria method (.ok st) session
        = .ok st' → P st') :
    ∀ (ss : List ExamSession), (∀ s ∈ ss, s ∈ sessions₀) →
    ∀ (st st' : AllocState), P st →
      ss.foldl (processSession scorer students rooms timeslots criteria method) (.ok st)
        = .ok st' → P st' := by
  intro ss
  induction ss with
  | nil =>
    intro _ st st' hP h
    injection h with h'
    rw [← h']
    exact hP
  | cons s ss ih =>
    intro hsub st st' hP h
    rw [List.foldl_cons] at h
    rcases hstep : processSession scorer students rooms timeslots criteria method
        (.ok st) s with e | st1
    · rw [hstep] at h
      rw [sessFold_error] at h
      cases h
    · rw [hstep] at h
      exact ih (fun x hx => hsub x (List.mem_cons_of_mem s hx)) st1 st'
        (step st s st1 (hsub s (List.mem_cons_self s ss)) hP hstep) h

/-- Inversion of a successful `generate_schedule`: the solution's schedule,
infeasible list and final examiners are those of the final fold state. -/
theorem generate_ok_inv (scorer : Scorer) (students : List Student)
    (examiners : List Examiner) (rooms : List Room) (timeslots : List TimeSlot)
    (exam_sessions : List ExamSession) (criteria : List Criteria) (method : String)
    (sol : DSSSolution) (fx : List Examiner)
    (h : generate_schedule scorer students examiners rooms timeslots exam_sessions
      criteria method = .ok (sol, fx)) :
    ∃ st : AllocState,
      (sortByDesc (fun s => s.priority) exam_sessions).foldl
        (processSession scorer students rooms timeslots criteria method)
        (.ok ⟨[], [], 0, examiners⟩) = .ok st ∧
      sol.schedule = st.schedule ∧ sol.infeasible_exams = st.infeasible_exams ∧
      fx = st.examiners := by
  simp only [generate_schedule] at h
  rcases hfold : (sortByDesc (fun s => s.priority) exam_sessions).foldl
      (processSession scorer students rooms timeslots criteria method)
      (.ok ⟨[], [], 0, examiners⟩) with e | st
  · rw [hfold] at h
    cases h
  · rw [hfold] at h
    rcases hev : evaluate_alternatives scorer [List.replicate criteria.length 1]
        criteria method with e | p
    · rw [hev] at h
      cases h
    · rw [hev] at h
      rcases p with ⟨sc, cw⟩
      injection h with h'
      injection h' with hsol hfx
      refine ⟨st, hfold, ?_, ?_, hfx.symm⟩
      · rw [← hsol]
      · rw [← hsol]

/-! ## Claims C1 and C2 -/

/-- Claim C1: every committed assignment of a returned Solution contains the
supervisor id of the student its work item refers to. -/
theorem c1_mandatory_supervisor (scorer : Scorer) (students : List Student)
    (examiners : List Examiner) (rooms : List Room) (timeslots : List TimeSlot)
    (exam_sessions : List ExamSession) (criteria : List Criteria) (method : String)
    (sol : DSSSolution) (fx : List Examiner)
    (h : generate_schedule scorer students examiners rooms timeslots exam_sessions
      criteria method = .ok (sol, fx)) :
    ∀ r ∈ sol.schedule, ∃ sess ∈ exam_sessions, ∃ stu,
      r.exam_id = sess.id ∧
      studentLookup students sess.student_id = some stu ∧
      r.student_name = stu.name ∧
      stu.supervisor_id ∈ r.assigned_examiners := by
  rcases generate_ok_inv scorer students examiners rooms timeslots exam_sessions criteria
    method sol fx h with ⟨st, hfold, hsched, _, _⟩
  rw [hsched]
  refine sessFold_inv scorer students rooms timeslots criteria method exam_sessions
    (fun s => ∀ r ∈ s.schedule, ∃ sess ∈ exam_sessions, ∃ stu,
      r.exam_id = sess.id ∧ studentLookup students sess.student_id = some stu ∧
      r.student_name = stu.name ∧ stu.supervisor_id ∈ r.assigned_examiners)
    ?_ (sortByDesc (fun s => s.priority) exam_sessions)
    (fun s hs => ((sortByDesc_perm (fun s => s.priority) exam_sessions).mem_iff).1 hs)
    ⟨[], [], 0, examiners⟩ st (by intro r hr; cases hr) hfold
  intro st0 session st1 hmem hP hstep
  rcases processSession_step scorer students rooms timeslots criteria method st0 session
    st1 hstep with hinf | ⟨student, bs, best, hlk, hst1, hcand⟩
  · rw [hinf]
    intro r hr
    exact hP r hr
  · rw [hst1]
    intro r hr
    rcases List.mem_append.1 hr with hr | hr
    · exact hP r hr
    · rcases List.mem_singleton.1 hr with rfl
      obtain ⟨hchk, hexam, hname, t, htmem, htsid, sel, hsel, hselne, hlen, hassigned⟩ := hcand
      rcases select_ok_inv scorer student st0.examiners t.id session.required_examiners
        criteria method sel hsel hselne with ⟨sup, rest, hselshape, hsupid, _, _, _⟩
      refine ⟨session, hmem, student, hexam, hlk, hname, ?_⟩
      rw [hassigned, hselshape, List.map_cons]
      exact hsupid ▸ List.mem_cons_self _ _

unseal Rat.add Rat.mul Rat.sub Rat.inv Rat.ofScientific in
/-- Witness for C1 on the witness run. -/
theorem c1_witness :
    ∃ sess ∈ wsSessions, ∃ stu,
      wsFirstResult.exam_id = sess.id ∧
      studentLookup wsStudents sess.student_id = some stu ∧
      wsFirstResult.student_name = stu.name ∧
      stu.supervisor_id ∈ wsFirstResult.assigned_examiners :=
  c1_mandatory_supervisor zeroScorer wsStudents wsExaminers wsRooms wsTimeslots wsSessions
    default_criteria "SAW" wsSol wsFinalExaminers (by decide) wsFirstResult (by decide)

/-- The pairwise no-conflict invariant used for C2. -/
theorem c2_invariant (scorer : Scorer) (students : List Student)
    (examiners : List Examiner) (rooms : List Room) (timeslots : List TimeSlot)
    (exam_sessions : List ExamSession) (criteria : List Criteria) (method : String)
    (sol : DSSSolution) (fx : List Examiner)
    (h : generate_schedule scorer students examiners rooms timeslots exam_sessions
      criteria method = .ok (sol, fx)) :
    sol.schedule.Pairwise (fun a b => a.timeslot_id = b.timeslot_id →
      a.room_id ≠ b.room_id ∧ ∀ x ∈ a.assigned_examiners, x ∉ b.assigned_examiners) := by
  rcases generate_ok_inv scorer students examiners rooms timeslots exam_sessions criteria
    method sol fx h with ⟨st, hfold, hsched, _, _⟩
  rw [hsched]
  refine sessFold_inv scorer students rooms timeslots criteria method exam_sessions
    (fun s => s.schedule.Pairwise (fun a b => a.timeslot_id = b.timeslot_id →
      a.room_id ≠ b.room_id ∧ ∀ x ∈ a.assigned_examiners, x ∉ b.assigned_examiners))
    ?_ (sortByDesc (fun s => s.priority) exam_sessions)
    (fun s hs => ((sortByDesc_perm (fun s => s.priority) exam_sessions).mem_iff).1 hs)
    ⟨[], [], 0, examiners⟩ st (by constructor) hfold
  intro st0 session st1 hmem hP hstep
  rcases processSession_step scorer students rooms timeslots criteria method st0 session
    st1 hstep with hinf | ⟨student, bs, best, hlk, hst1, hcand⟩
  · rw [hinf]
    exact hP
  · rw [hst1]
    obtain ⟨hchk, _⟩ := hcand
    refine List.pairwise_append.2 ⟨hP, List.pairwise_singleton _ _, ?_⟩
    intro a ha b hb
    rcases List.mem_singleton.1 hb with rfl
    exact (check_iff st0.schedule b).1 hchk a ha

/-- Claim C2: two distinct committed assignments sharing a timeslot have
different rooms and no common assigned examiner. -/
theorem c2_no_conflicts (scorer : Scorer) (students : List Student)
    (examiners : List Examiner) (rooms : List Room) (timeslots : List TimeSlot)
    (exam_sessions : List ExamSession) (criteria : List Criteria) (method : String)
    (sol : DSSSolution) (fx : List Examiner)
    (h : generate_schedule scorer students examiners rooms timeslots exam_sessions
      criteria method = .ok (sol, fx)) :
    ∀ i j, i < sol.schedule.length → j < sol.schedule.length → i ≠ j →
      (sol.schedule.getD i defaultResult).timeslot_id =
        (sol.schedule.getD j defaultResult).timeslot_id →
      (sol.schedule.getD i defaultResult).room_id ≠
        (sol.schedule.getD j defaultResult).room_id ∧
      ¬∃ e, e ∈ (sol.schedule.getD i defaultResult).assigned_examiners ∧
        e ∈ (sol.schedule.getD j defaultResult).assigned_examiners := by
  have hpw := c2_invariant scorer students examiners rooms timeslots exam_sessions criteria
    method sol fx h
  have hidx := List.pairwise_iff_get.1 hpw
  intro i j hi hj hne ht
  rcases lt_or_gt_of_ne hne with hlt | hgt
  · have := hidx ⟨i, hi⟩ ⟨j, hj⟩ hlt
    rw [List.getD_eq_getElem _ _ hi, List.getD_eq_getElem _ _ hj] at ht ⊢
    have hc := this (by simpa using ht)
    refine ⟨by simpa using hc.1, ?_⟩
    rintro ⟨e, he1, he2⟩
    exact hc.2 e (by simpa using he1) (by simpa using he2)
  · have := hidx ⟨j, hj⟩ ⟨i, hi⟩ hgt
    rw [List.getD_eq_getElem _ _ hi, List.getD_eq_getElem _ _ hj] at ht ⊢
    have hc := this (by simpa using ht.symm)
    refine ⟨by simpa using (Ne.symm hc.1), ?_⟩
    rintro ⟨e, he1, he2⟩
    exact hc.2 e (by simpa using he2) (by simpa using he1)

unseal Rat.add Rat.mul Rat.sub Rat.inv Rat.ofScientific in
/-- Witness for C2 on the witness run (two committed assignments share
timeslot 100 there). -/
theorem c2_witness :
    ((0 : ℕ) ≠ 1) ∧
    ((wsSol.schedule.getD 0 defaultResult).timeslot_id =
      (wsSol.schedule.getD 1 defaultResult).timeslot_id) ∧
    ((wsSol.schedule.getD 0 defaultResult).room_id ≠
      (wsSol.schedule.getD 1 defaultResult).room_id ∧
     ¬∃ e, e ∈ (wsSol.schedule.getD 0 defaultResult).assigned_examiners ∧
       e ∈ (wsSol.schedule.getD 1 defaultResult).assigned_examiners) :=
  ⟨by decide, by decide,
    c2_no_conflicts zeroScorer wsStudents wsExaminers wsRooms wsTimeslots wsSessions
      default_criteria "SAW" wsSol wsFinalExaminers (by decide) 0 1 (by decide) (by decide)
      (by decide) (by decide)⟩

/-! ## Totality under a supported method (for C10) -/

theorem evaluate_ok_of_valid (scorer : Scorer) (matrix : List (List ℚ))
    (criteria : List Criteria) (method : String)
    (hm : pyUpper method = "SAW" ∨ pyUpper method = "TOPSIS") :
    ∃ p, evaluate_alternatives scorer matrix criteria method = .ok p := by
  unfold evaluate_alternatives
  rcases hm with hm | hm
  · rw [hm, if_pos rfl]
    exact ⟨_, rfl⟩
  · rw [hm, if_neg (by decide), if_pos rfl]
    exact ⟨_, rfl⟩

theorem select_ok_of_valid (scorer : Scorer) (student : Student) (exs : List Examiner)
    (tid req : Int) (criteria : List Criteria) (method : String)
    (hm : pyUpper method = "SAW" ∨ pyUpper method = "TOPSIS") :
    ∃ sel, select_best_examiners scorer student exs tid req criteria method = .ok sel := by
  simp only [select_best_examiners]
  by_cases h1 : ((exs.filter (fun e => e.available_timeslots.contains tid)).length : Int) < req
  · rw [if_pos h1]
    exact ⟨[], rfl⟩
  rw [if_neg h1]
  rcases hf : (exs.filter (fun e => e.available_timeslots.contains tid)).find?
      (fun e => e.id == student.supervisor_id) with _ | sup
  all_goals rw [hf]
  · exact ⟨[], rfl⟩
  simp only []
  by_cases hmat : ((exs.filter (fun e => e.available_timeslots.contains tid)).filter
      (fun e => e.id != student.supervisor_id)).map
        (fun ex => criteria.map
          (fun c => criterionValue c (evaluate_examiner_for_student ex student tid) ex)) = []
  · rw [if_pos hmat]
    exact ⟨[], rfl⟩
  rw [if_neg hmat]
  obtain ⟨p, hp⟩ := evaluate_ok_of_valid scorer
    (((exs.filter (fun e => e.available_timeslots.contains tid)).filter
      (fun e => e.id != student.supervisor_id)).map
        (fun ex => criteria.map
          (fun c => criterionValue c (evaluate_examiner_for_student ex student tid) ex)))
    criteria method hm
  rw [hp]
  rcases p with ⟨scores, w⟩
  exact ⟨_, rfl⟩

theorem tsFold_ok_of_valid (scorer : Scorer) (rooms : List Room) (criteria : List Criteria)
    (method : String) (student : Student) (session : ExamSession)
    (sched : List ScheduleResult) (exs : List Examiner)
    (hm : pyUpper method = "SAW" ∨ pyUpper method = "TOPSIS") :
    ∀ (ts : List TimeSlot) (b : ℚ) (o : Option ScheduleResult),
      ∃ b' o', ts.foldl (processTimeslot scorer rooms criteria method student session sched exs)
        (.ok (b, o)) = .ok (b', o') := by
  intro ts
  induction ts with
  | nil => intro b o; exact ⟨b, o, rfl⟩
  | cons t ts ih =>
    intro b o
    rw [List.foldl_cons]
    obtain ⟨sel, hsel⟩ := select_ok_of_valid scorer student exs t.id
      session.required_examiners criteria method hm
    have hpt : processTimeslot scorer rooms criteria method student session sched exs
        (.ok (b, o)) t =
        if (sel.length : Int) < session.required_examiners ∨ sel = [] then .ok (b, o)
        else .ok (rooms.foldl (considerRoom sched student session sel t) (b, o)) := by
      simp only [processTimeslot, hsel]
    rw [hpt]
    by_cases hskip : ((sel.length : Int) < session.required_examiners ∨ sel = [])
    · rw [if_pos hskip]
      exact ih b o
    · rw [if_neg hskip]
      rcases hres : rooms.foldl (considerRoom sched student session sel t) (b, o) with ⟨b2, o2⟩
      exact ih b2 o2

theorem processSession_ok_of_valid (scorer : Scorer) (students : List Student)
    (rooms : List Room) (timeslots : List TimeSlot) (criteria : List Criteria)
    (method : String) (st : AllocState) (session : ExamSession)
    (hm : pyUpper method = "SAW" ∨ pyUpper method = "TOPSIS") :
    ∃ st', processSession scorer students rooms timeslots criteria method (.ok st) session
      = .ok st' := by
  simp only [processSession]
  rcases hlk : studentLookup students session.student_id with _ | student
  · exact ⟨_, rfl⟩
  obtain ⟨b', o', hfold⟩ := tsFold_ok_of_valid scorer rooms criteria method student session
    st.schedule st.examiners hm timeslots (-1 : ℚ) none
  simp only []
  rw [hfold]
  rcases o' with _ | best
  · exact ⟨_, rfl⟩
  · exact ⟨_, rfl⟩

theorem sessFold_ok_of_valid (scorer : Scorer) (students : List Student)
    (rooms : List Room) (timeslots : List TimeSlot) (criteria : List Criteria)
    (method : String)
    (hm : pyUpper method = "SAW" ∨ pyUpper method = "TOPSIS") :
    ∀ (ss : List ExamSession) (st : AllocState),
      ∃ st', ss.foldl (processSession scorer students rooms timeslots criteria method)
        (.ok st) = .ok st' := by
  intro ss
  induction ss with
  | nil => intro st; exact ⟨st, rfl⟩
  | cons s ss ih =>
    intro st
    rw [List.foldl_cons]
    obtain ⟨st1, hst1⟩ := processSession_ok_of_valid scorer students rooms timeslots criteria
      method st s hm
    rw [hst1]
    exact ih st1

theorem generate_ok_of_valid (scorer : Scorer) (students : List Student)
    (examiners : List Examiner) (rooms : List Room) (timeslots : List TimeSlot)
    (exam_sessions : List ExamSession) (criteria : List Criteria) (method : String)
    (hm : pyUpper method = "SAW" ∨ pyUpper method = "TOPSIS") :
    ∃ sol fx, generate_schedule scorer students examiners rooms timeslots exam_sessions
      criteria method = .ok (sol, fx) := by
  simp only [generate_schedule]
  obtain ⟨st, hst⟩ := sessFold_ok_of_valid scorer students rooms timeslots criteria method hm
    (sortByDesc (fun s => s.priority) exam_sessions) ⟨[], [], 0, examiners⟩
  rw [hst]
  simp only []
  obtain ⟨p, hp⟩ := evaluate_ok_of_valid scorer [List.replicate criteria.length 1]
    criteria method hm
  rw [hp]
  rcases p with ⟨sc, cw⟩
  exact ⟨_, _, rfl⟩

/-! ## Claim C10 -/

theorem processSession_infeasible_mono (scorer : Scorer) (students : List Student)
    (rooms : List Room) (timeslots : List TimeSlot) (criteria : List Criteria)
    (method : String) (st : AllocState) (session : ExamSession) (st' : AllocState)
    (h : processSession scorer students rooms timeslots criteria method (.ok st) session
      = .ok st') :
    ∀ x ∈ st.infeasible_exams, x ∈ st'.infeasible_exams := by
  rcases processSession_step scorer students rooms timeslots criteria method st session
    st' h with hinf | ⟨student, bs, best, _, hst', _⟩
  · rw [hinf]
    intro x hx
    exact List.mem_append_left _ hx
  · rw [hst']
    intro x hx
    exact hx

theorem sessFold_infeasible_mono (scorer : Scorer) (students : List Student)
    (rooms : List Room) (timeslots : List TimeSlot) (criteria : List Criteria)
    (method : String) :
    ∀ (ss : List ExamSession) (st st' : AllocState),
      ss.foldl (processSession scorer students rooms timeslots criteria method) (.ok st)
        = .ok st' →
      ∀ x ∈ st.infeasible_exams, x ∈ st'.infeasible_exams := by
  intro ss
  induction ss with
  | nil =>
    intro st st' h
    injection h with h'
    rw [← h']
    exact fun x hx => hx
  | cons s ss ih =>
    intro st st' h
    rw [List.foldl_cons] at h
    rcases hstep : processSession scorer students rooms timeslots criteria method
        (.ok st) s with e | st1
    · rw [hstep, sessFold_error] at h
      cases h
    · rw [hstep] at h
      intro x hx
      exact ih st1 st' h x
        (processSession_infeasible_mono scorer students rooms timeslots criteria method
          st s st1 hstep x hx)

/-- A session whose student is missing is recorded as infeasible by its own
step. -/
theorem processSession_missing (scorer : Scorer) (students : List Student)
    (rooms : List Room) (timeslots : List TimeSlot) (criteria : List Criteria)
    (method : String) (st : AllocState) (session : ExamSession)
    (hlk : studentLookup students session.student_id = none) :
    processSession scorer students rooms timeslots criteria method (.ok st) session
      = .ok { st with infeasible_exams := st.infeasible_exams ++ [session.id] } := by
  simp only [processSession, hlk]

theorem sessFold_missing_recorded (scorer : Scorer) (students : List Student)
    (rooms : List Room) (timeslots : List TimeSlot) (criteria : List Criteria)
    (method : String) :
    ∀ (ss : List ExamSession) (st st' : AllocState),
      ss.foldl (processSession scorer students rooms timeslots criteria method) (.ok st)
        = .ok st' →
      ∀ s ∈ ss, studentLookup students s.student_id = none → s.id ∈ st'.infeasible_exams := by
  intro ss
  induction ss with
  | nil => intro st st' _ s hs; cases hs
  | cons s0 ss ih =>
    intro st st' h s hs hlk
    rw [List.foldl_cons] at h
    rcases List.mem_cons.1 hs with rfl | hs
    · rw [processSession_missing scorer students rooms timeslots criteria method st s hlk] at h
      exact sessFold_infeasible_mono scorer students rooms timeslots criteria method ss _ st'
        h s.id (List.mem_append_right _ (List.mem_singleton.2 rfl))
    · rcases hstep : processSession scorer students rooms timeslots criteria method
          (.ok st) s0 with e | st1
      · rw [hstep, sessFold_error] at h
        cases h
      · rw [hstep] at h
        exact ih st1 st' h s hs hlk

/-- Claim C10: with a supported method name, the allocator returns a Solution
(raising no error), and every work item whose student id matches none of the
supplied students has its id recorded in the Solution's infeasible list. -/
theorem c10_missing_student (scorer : Scorer) (students : List Student)
    (examiners : List Examiner) (rooms : List Room) (timeslots : List TimeSlot)
    (exam_sessions : List ExamSession) (criteria : List Criteria) (method : String)
    (hm : pyUpper method = "SAW" ∨ pyUpper method = "TOPSIS") :
    ∃ sol fx, generate_schedule scorer students examiners rooms timeslots exam_sessions
      criteria method = .ok (sol, fx) ∧
      ∀ sess ∈ exam_sessions, studentLookup students sess.student_id = none →
        sess.id ∈ sol.infeasible_exams := by
  obtain ⟨sol, fx, hgen⟩ := generate_ok_of_valid scorer students examiners rooms timeslots
    exam_sessions criteria method hm
  refine ⟨sol, fx, hgen, ?_⟩
  obtain ⟨st, hfold, _, hinf, _⟩ := generate_ok_inv scorer students examiners rooms timeslots
    exam_sessions criteria method sol fx hgen
  rw [hinf]
  intro sess hs hlk
  exact sessFold_missing_recorded scorer students rooms timeslots criteria method
    (sortByDesc (fun s => s.priority) exam_sessions) ⟨[], [], 0, examiners⟩ st hfold sess
    (((sortByDesc_perm (fun s => s.priority) exam_sessions).mem_iff).2 hs) hlk

/-- Witness for C10: a run whose only session names the missing student 99. -/
theorem c10_witness :
    (pyUpper "SAW" = "SAW" ∨ pyUpper "SAW" = "TOPSIS") ∧
    ∃ sol fx, generate_schedule zeroScorer wsStudents wsExaminers wsRooms wsTimeslots
      c10Sessions default_criteria "SAW" = .ok (sol, fx) ∧
      ∀ sess ∈ c10Sessions, studentLookup wsStudents sess.student_id = none →
        sess.id ∈ sol.infeasible_exams :=
  ⟨Or.inl (by decide),
    c10_missing_student zeroScorer wsStudents wsExaminers wsRooms wsTimeslots c10Sessions
      default_criteria "SAW" (Or.inl (by decide))⟩

/-! ## Claim C5 (unsupported method) -/

theorem evaluate_invalid (scorer : Scorer) (matrix : List (List ℚ))
    (criteria : List Criteria) (method : String)
    (hm : ¬(pyUpper method = "SAW" ∨ pyUpper method = "TOPSIS")) :
    evaluate_alternatives scorer matrix criteria method
      = .error ("Unsupported method: " ++ method) := by
  push_neg at hm
  simp only [evaluate_alternatives]
  rw [if_neg hm.1, if_neg hm.2]

theorem select_invalid (scorer : Scorer) (student : Student) (exs : List Examiner)
    (tid req : Int) (criteria : List Criteria) (method : String)
    (hm : ¬(pyUpper method = "SAW" ∨ pyUpper method = "TOPSIS")) :
    select_best_examiners scorer student exs tid req criteria method
        = .error ("Unsupported method: " ++ method) ∨
    select_best_examiners scorer student exs tid req criteria method = .ok [] := by
  simp only [select_best_examiners]
  by_cases h1 : ((exs.filter (fun e => e.available_timeslots.contains tid)).length : Int) < req
  · rw [if_pos h1]
    exact Or.inr rfl
  rw [if_neg h1]
  rcases hf : (exs.filter (fun e => e.available_timeslots.contains tid)).find?
      (fun e => e.id == student.supervisor_id) with _ | sup
  all_goals rw [hf]
  · exact Or.inr rfl
  simp only []
  by_cases hmat : ((exs.filter (fun e => e.available_timeslots.contains tid)).filter
      (fun e => e.id != student.supervisor_id)).map
        (fun ex => criteria.map
          (fun c => criterionValue c (evaluate_examiner_for_student ex student tid) ex)) = []
  · rw [if_pos hmat]
    exact Or.inr rfl
  rw [if_neg hmat]
  rw [evaluate_invalid scorer _ criteria method hm]
  exact Or.inl rfl

theorem processTimeslot_invalid (scorer : Scorer) (rooms : List Room)
    (criteria : List Criteria) (method : String) (student : Student)
    (session : ExamSession) (sched : List ScheduleResult) (exs : List Examiner)
    (b : ℚ) (o : Option ScheduleResult) (t : TimeSlot)
    (hm : ¬(pyUpper method = "SAW" ∨ pyUpper method = "TOPSIS")) :
    processTimeslot scorer rooms criteria method student session sched exs (.ok (b, o)) t
        = .ok (b, o) ∨
    processTimeslot scorer rooms criteria method student session sched exs (.ok (b, o)) t
        = .error ("Unsupported method: " ++ method) := by
  simp only [processTimeslot]
  rcases select_invalid scorer student exs t.id session.required_examiners criteria method hm
    with hsel | hsel
  all_goals rw [hsel]
  · exact Or.inr rfl
  · simp only []
    rw [if_pos (Or.inr trivial)]
    exact Or.inl rfl

theorem tsFold_invalid (scorer : Scorer) (rooms : List Room) (criteria : List Criteria)
    (method : String) (student : Student) (session : ExamSession)
    (sched : List ScheduleResult) (exs : List Examiner)
    (hm : ¬(pyUpper method = "SAW" ∨ pyUpper method = "TOPSIS")) :
    ∀ (ts : List TimeSlot) (b : ℚ) (o : Option ScheduleResult),
      ts.foldl (processTimeslot scorer rooms criteria method student session sched exs)
          (.ok (b, o)) = .ok (b, o) ∨
      ts.foldl (processTimeslot scorer rooms criteria method student session sched exs)
          (.ok (b, o)) = .error ("Unsupported method: " ++ method) := by
  intro ts
  induction ts with
  | nil => intro b o; exact Or.inl rfl
  | cons t ts ih =>
    intro b o
    rw [List.foldl_cons]
    rcases processTimeslot_invalid scorer rooms criteria method student session sched exs
      b o t hm with hpt | hpt
    all_goals rw [hpt]
    · exact ih b o
    · rw [tsFold_error]
      exact Or.inr rfl

theorem processSession_invalid (scorer : Scorer) (students : List Student)
    (rooms : List Room) (timeslots : List TimeSlot) (criteria : List Criteria)
    (method : String) (st : AllocState) (session : ExamSession)
    (hm : ¬(pyUpper method = "SAW" ∨ pyUpper method = "TOPSIS")) :
    processSession scorer students rooms timeslots criteria method (.ok st) session
        = .ok { st with infeasible_exams := st.infeasible_exams ++ [session.id] } ∨
    processSession scorer students rooms timeslots criteria method (.ok st) session
        = .error ("Unsupported method: " ++ method, st) := by
  simp only [processSession]
  rcases hlk : studentLookup students session.student_id with _ | student
  · exact Or.inl rfl
  simp only []
  rcases tsFold_invalid scorer rooms criteria method student session st.schedule
    st.examiners hm timeslots (-1 : ℚ) none with hts | hts
  all_goals rw [hts]
  · exact Or.inl rfl
  · exact Or.inr rfl

theorem sessFold_invalid (scorer : Scorer) (students : List Student) (rooms : List Room)
    (timeslots : List TimeSlot) (criteria : List Criteria) (method : String)
    (hm : ¬(pyUpper method = "SAW" ∨ pyUpper method = "TOPSIS")) :
    ∀ (ss : List ExamSession) (st : AllocState),
      (∃ st', ss.foldl (processSession scorer students rooms timeslots criteria method)
          (.ok st) = .ok st' ∧
        st'.schedule = st.schedule ∧ st'.examiners = st.examiners ∧
        st'.total_satisfaction = st.total_satisfaction) ∨
      (∃ st', ss.foldl (processSession scorer students rooms timeslots criteria method)
          (.ok st) = .error ("Unsupported method: " ++ method, st') ∧
        st'.schedule = st.schedule ∧ st'.examiners = st.examiners ∧
        st'.total_satisfaction = st.total_satisfaction) := by
  intro ss
  induction ss with
  | nil => intro st; exact Or.inl ⟨st, rfl, rfl, rfl, rfl⟩
  | cons s ss ih =>
    intro st
    rw [List.foldl_cons]
    rcases processSession_invalid scorer students rooms timeslots criteria method st s hm
      with hstep | hstep
    all_goals rw [hstep]
    · rcases ih { st with infeasible_exams := st.infeasible_exams ++ [s.id] } with
        ⟨st', hf, h1, h2, h3⟩ | ⟨st', hf, h1, h2, h3⟩
      · exact Or.inl ⟨st', hf, h1, h2, h3⟩
      · exact Or.inr ⟨st', hf, h1, h2, h3⟩
    · rw [sessFold_error]
      exact Or.inr ⟨st, rfl, rfl, rfl, rfl⟩

/-- Claim C5 (amended): an unsupported method name (case-insensitive) makes
`generate_schedule` raise `ValueError("Unsupported method: ...")`; at the
moment of the raise no assignment has been committed and no examiner workload
has been mutated (the caller-observable part), but — contrary to the frozen
claim — the raise is not eager: work items processed earlier whose student is
missing have already been recorded in the internal infeasible list. -/
theorem c5_eager_error_amended (scorer : Scorer) (students : List Student)
    (examiners : List Examiner) (rooms : List Room) (timeslots : List TimeSlot)
    (exam_sessions : List ExamSession) (criteria : List Criteria) (method : String)
    (hm : ¬(pyUpper method = "SAW" ∨ pyUpper method = "TOPSIS")) :
    ∃ st, generate_schedule scorer students examiners rooms timeslots exam_sessions
        criteria method = .error ("Unsupported method: " ++ method, st) ∧
      st.schedule = [] ∧ st.examiners = examiners ∧ st.total_satisfaction = 0 := by
  simp only [generate_schedule]
  rcases sessFold_invalid scorer students rooms timeslots criteria method hm
    (sortByDesc (fun s => s.priority) exam_sessions) ⟨[], [], 0, examiners⟩ with
    ⟨st, hf, h1, h2, h3⟩ | ⟨st, hf, h1, h2, h3⟩
  all_goals rw [hf]
  · simp only []
    rw [evaluate_invalid scorer _ criteria method hm]
    exact ⟨st, rfl, h1, h2, h3⟩
  · exact ⟨st, rfl, h1, h2, h3⟩

/-- Counterexample for C5 as frozen: with the unsupported method "INVALID",
the run first records session 1 (missing student 99) as infeasible and only
then raises while scoring session 2 — so the error is not raised before any
partial computation: the infeasible list at the moment of the raise is `[1]`,
not `[]`.  (No assignment is committed and no workload is mutated, as the
amended claim states.) -/
theorem c5_counterexample :
    c5Run = .error ("Unsupported method: INVALID", ⟨[], [1], 0, c5Examiners⟩) ∧
    ([1] : List Int) ≠ [] := by
  constructor
  · decide
  · decide

/-- Witness for C5 (amended) at the method name "FOO". -/
theorem c5_witness :
    (¬(pyUpper "FOO" = "SAW" ∨ pyUpper "FOO" = "TOPSIS")) ∧
    ∃ st, generate_schedule zeroScorer wsStudents wsExaminers wsRooms wsTimeslots
        wsSessions default_criteria "FOO" = .error ("Unsupported method: " ++ "FOO", st) ∧
      st.schedule = [] ∧ st.examiners = wsExaminers ∧ st.total_satisfaction = 0 :=
  ⟨by decide,
    c5_eager_error_amended zeroScorer wsStudents wsExaminers wsRooms wsTimeslots wsSessions
      default_criteria "FOO" (by decide)⟩

/-! ## Claim C9 (frame property of the workload update) -/

theorem subperm_nodup {α : Type} {l₁ l₂ : List α} (h : l₁.Subperm l₂) (hnd : l₂.Nodup) :
    l₁.Nodup := by
  rcases h with ⟨l, hperm, hsub⟩
  exact hperm.nodup_iff.1 (hsub.nodup hnd)

theorem bumpOne_length (exs : List Examiner) (eid : Int) :
    (bumpOne exs eid).length = exs.length := by
  induction exs with
  | nil => rfl
  | cons e rest ih =>
    rw [bumpOne]
    by_cases h : e.id = eid
    · rw [if_pos h]
      simp
    · rw [if_neg h]
      simp [ih]

theorem bumpOne_map_id (exs : List Examiner) (eid : Int) :
    (bumpOne exs eid).map (fun e => e.id) = exs.map (fun e => e.id) := by
  induction exs with
  | nil => rfl
  | cons e rest ih =>
    rw [bumpOne]
    by_cases h : e.id = eid
    · rw [if_pos h]
      simp
    · rw [if_neg h]
      simp [ih]

theorem bumpOne_getD (exs : List Examiner) (eid : Int)
    (hnd : (exs.map (fun e => e.id)).Nodup) :
    ∀ k, k < exs.length →
      (bumpOne exs eid).getD k defaultExaminer =
        (if (exs.getD k defaultExaminer).id = eid
         then { exs.getD k defaultExaminer with
                workload := (exs.getD k defaultExaminer).workload + 1 }
         else exs.getD k defaultExaminer) := by
  induction exs with
  | nil => intro k hk; cases hk
  | cons e rest ih =>
    intro k hk
    rw [List.map_cons] at hnd
    have hnd2 := List.nodup_cons.1 hnd
    rw [bumpOne]
    by_cases h : e.id = eid
    · rw [if_pos h]
      cases k with
      | zero => simp [h]
      | succ k =>
        have hk2 : k < rest.length := by simpa using hk
        have hne : (rest.getD k defaultExaminer).id ≠ eid := by
          intro hcontra
          apply hnd2.1
          rw [h, ← hcontra]
          exact List.mem_map.2 ⟨rest.getD k defaultExaminer,
            by rw [List.getD_eq_getElem _ _ hk2]; exact List.getElem_mem hk2, rfl⟩
        simp only [List.getD_cons_succ]
        rw [if_neg hne]
    · rw [if_neg h]
      cases k with
      | zero => simp [h]
      | succ k =>
        have hk2 : k < rest.length := by simpa using hk
        simp only [List.getD_cons_succ]
        exact ih hnd2.2 k hk2

theorem bumpWorkloads_length (ids : List Int) :
    ∀ exs : List Examiner, (bumpWorkloads exs ids).length = exs.length := by
  induction ids with
  | nil => intro exs; rfl
  | cons i ids ih =>
    intro exs
    rw [bumpWorkloads, List.foldl_cons]
    rw [show List.foldl bumpOne (bumpOne exs i) ids = bumpWorkloads (bumpOne exs i) ids from rfl]
    rw [ih (bumpOne exs i), bumpOne_length]

theorem bumpWorkloads_map_id (ids : List Int) :
    ∀ exs : List Examiner,
      (bumpWorkloads exs ids).map (fun e => e.id) = exs.map (fun e => e.id) := by
  induction ids with
  | nil => intro exs; rfl
  | cons i ids ih =>
    intro exs
    rw [bumpWorkloads, List.foldl_cons]
    rw [show List.foldl bumpOne (bumpOne exs i) ids = bumpWorkloads (bumpOne exs i) ids from rfl]
    rw [ih (bumpOne exs i), bumpOne_map_id]

theorem bumpWorkloads_getD (ids : List Int) :
    ∀ (exs : List Examiner), (exs.map (fun e => e.id)).Nodup →
    ∀ k, k < exs.length →
      (bumpWorkloads exs ids).getD k defaultExaminer =
        { exs.getD k defaultExaminer with
          workload := (exs.getD k defaultExaminer).workload
            + (ids.count (exs.getD k defaultExaminer).id : Int) } := by
  induction ids with
  | nil =>
    intro exs _ k _
    rcases hE : exs.getD k defaultExaminer with ⟨a1, a2, a3, a4, a5, a6, a7, a8, a9⟩
    show exs.getD k defaultExaminer = _
    rw [hE]
    simp [List.count_nil]
  | cons i ids ih =>
    intro exs hnd k hk
    rw [bumpWorkloads, List.foldl_cons]
    rw [show List.foldl bumpOne (bumpOne exs i) ids = bumpWorkloads (bumpOne exs i) ids from rfl]
    have hnd2 : ((bumpOne exs i).map (fun e => e.id)).Nodup := by
      rw [bumpOne_map_id]; exact hnd
    have hk2 : k < (bumpOne exs i).length := by rw [bumpOne_length]; exact hk
    rw [ih (bumpOne exs i) hnd2 k hk2]
    rw [bumpOne_getD exs i hnd k hk]
    by_cases h : (exs.getD k defaultExaminer).id = i
    · rw [if_pos h]
      dsimp only []
      have hcount : ((ids.count (exs.getD k defaultExaminer).id : ℕ) : Int) + 1
          = (((i :: ids).count (exs.getD k defaultExaminer).id : ℕ) : Int) := by
        rw [List.count_cons, if_pos (beq_iff_eq.2 h.symm)]
        push_cast
        ring
      congr 1
      omega
    · rw [if_neg h]
      have hcount : (((i :: ids).count (exs.getD k defaultExaminer).id : ℕ) : Int)
          = ((ids.count (exs.getD k defaultExaminer).id : ℕ) : Int) := by
        rw [List.count_cons, if_neg (fun hc => h (beq_iff_eq.1 hc).symm)]
        push_cast
        ring
      rw [hcount]

theorem select_ok_nodup (scorer : Scorer) (student : Student) (exs : List Examiner)
    (tid req : Int) (criteria : List Criteria) (method : String)
    (sel : List (Examiner × ℚ))
    (h : select_best_examiners scorer student exs tid req criteria method = .ok sel)
    (hnd : (exs.map (fun e => e.id)).Nodup) :
    (sel.map (fun p => p.1.id)).Nodup := by
  by_cases hne : sel = []
  · rw [hne]; exact List.nodup_nil
  rcases select_ok_inv scorer student exs tid req criteria method sel h hne with
    ⟨sup, rest, hshape, hsupid, _, hrest, hsubperm⟩
  rw [hshape, List.map_cons]
  rw [List.nodup_cons]
  constructor
  · intro hmem
    rcases List.mem_map.1 hmem with ⟨p, hp, hpid⟩
    exact (hrest p hp).2 (by rw [hpid]; exact hsupid)
  · have hregnd : ((((exs.filter (fun e => e.available_timeslots.contains tid)).filter
        (fun e => e.id != student.supervisor_id))).map (fun e => e.id)).Nodup := by
      refine List.Nodup.sublist ?_ hnd
      exact ((List.filter_sublist _).trans (List.filter_sublist _)).map _
    exact subperm_nodup hsubperm hregnd

/-- Claim C9: during one run, the workload counter is the only mutated field:
the final examiner list has the same length, agrees with the input on every
field but `workload`, and each examiner's workload grows by exactly the
number of committed assignments whose examiner set contains its id (each
committed assignment has duplicate-free assigned ids, so "exactly 1 per
containing assignment").  Requires the data-model assumption that evaluator
identities are distinct. -/
theorem c9_frame (scorer : Scorer) (students : List Student) (examiners : List Examiner)
    (rooms : List Room) (timeslots : List TimeSlot) (exam_sessions : List ExamSession)
    (criteria : List Criteria) (method : String) (sol : DSSSolution) (fx : List Examiner)
    (hnd : (examiners.map (fun e => e.id)).Nodup)
    (h : generate_schedule scorer students examiners rooms timeslots exam_sessions
      criteria method = .ok (sol, fx)) :
    fx.length = examiners.length ∧
    (∀ r ∈ sol.schedule, r.assigned_examiners.Nodup) ∧
    ∀ k, k < examiners.length →
      sameExceptWorkload (fx.getD k defaultExaminer) (examiners.getD k defaultExaminer) ∧
      (fx.getD k defaultExaminer).workload =
        (examiners.getD k defaultExaminer).workload +
          (sol.schedule.countP
            (fun r => decide ((examiners.getD k defaultExaminer).id
              ∈ r.assigned_examiners)) : Int) := by
  rcases generate_ok_inv scorer students examiners rooms timeslots exam_sessions criteria
    method sol fx h with ⟨st, hfold, hsched, _, hfx⟩
  have hinv := sessFold_inv scorer students rooms timeslots criteria method exam_sessions
    (fun s => s.examiners.length = examiners.length ∧
      s.examiners.map (fun e => e.id) = examiners.map (fun e => e.id) ∧
      (∀ r ∈ s.schedule, r.assigned_examiners.Nodup) ∧
      ∀ k, k < examiners.length →
        sameExceptWorkload (s.examiners.getD k defaultExaminer)
          (examiners.getD k defaultExaminer) ∧
        (s.examiners.getD k defaultExaminer).workload =
          (examiners.getD k defaultExaminer).workload +
            (s.schedule.countP
              (fun r => decide ((examiners.getD k defaultExaminer).id
                ∈ r.assigned_examiners)) : Int))
    ?_ (sortByDesc (fun s => s.priority) exam_sessions)
    (fun s hs => ((sortByDesc_perm (fun s => s.priority) exam_sessions).mem_iff).1 hs)
    ⟨[], [], 0, examiners⟩ st ?_ hfold
  · rw [hsched, hfx]
    exact ⟨hinv.1, hinv.2.2.1, hinv.2.2.2⟩
  · -- step preservation
    intro st0 session st1 _ hP hstep
    rcases processSession_step scorer students rooms timeslots criteria method st0 session
      st1 hstep with hinf | ⟨student, bs, best, hlk, hst1, hcand⟩
    · rw [hinf]
      exact hP
    · obtain ⟨hchk, hexam, hname, t, htmem, htsid, selq, hsel, hselne, hlen, hassigned⟩ := hcand
      have hnd0 : (st0.examiners.map (fun e => e.id)).Nodup := by
        rw [hP.2.1]; exact hnd
      have hbestnd : best.assigned_examiners.Nodup := by
        rw [hassigned]
        exact select_ok_nodup scorer student st0.examiners t.id session.required_examiners
          criteria method selq hsel hnd0
      rw [hst1]
      refine ⟨?_, ?_, ?_, ?_⟩
      · rw [bumpWorkloads_length, hP.1]
      · rw [bumpWorkloads_map_id, hP.2.1]
      · intro r hr
        rcases List.mem_append.1 hr with hr | hr
        · exact hP.2.2.1 r hr
        · rcases List.mem_singleton.1 hr with rfl
          exact hbestnd
      · intro k hk
        have hk0 : k < st0.examiners.length := by rw [hP.1]; exact hk
        rw [bumpWorkloads_getD best.assigned_examiners st0.examiners hnd0 k hk0]
        obtain ⟨hsame, hwork⟩ := hP.2.2.2 k hk
        have hid : (st0.examiners.getD k defaultExaminer).id
            = (examiners.getD k defaultExaminer).id := hsame.1
        constructor
        · exact ⟨hid, hsame.2.1, hsame.2.2.1, hsame.2.2.2.1, hsame.2.2.2.2.1,
            hsame.2.2.2.2.2.1, hsame.2.2.2.2.2.2.1, hsame.2.2.2.2.2.2.2⟩
        · dsimp only []
          rw [hwork, hid]
          rw [List.countP_append, List.countP_cons, List.countP_nil]
          by_cases hmem : (examiners.getD k defaultExaminer).id ∈ best.assigned_examiners
          · rw [List.count_eq_one_of_mem hbestnd hmem, if_pos (by simpa using hmem)]
            push_cast
            ring
          · rw [List.count_eq_zero.2 hmem, if_neg (by simpa using hmem)]
            push_cast
            ring
  · -- initial state
    refine ⟨rfl, rfl, ?_, ?_⟩
    · intro r hr
      simp at hr
    · intro k hk
      refine ⟨⟨rfl, rfl, rfl, rfl, rfl, rfl, rfl, rfl⟩, ?_⟩
      simp

unseal Rat.add Rat.mul Rat.sub Rat.inv Rat.ofScientific in
/-- Witness for C9 on the witness run: its six examiners (distinct ids) end
with workload counters increased by the number of committed assignments that
contain them (here: exactly one each). -/
theorem c9_witness :
    ((wsExaminers.map (fun e => e.id)).Nodup) ∧
    wsFinalExaminers.length = wsExaminers.length ∧
    (∀ r ∈ wsSol.schedule, r.assigned_examiners.Nodup) ∧
    ((0 : ℕ) < wsExaminers.length) ∧
    (sameExceptWorkload (wsFinalExaminers.getD 0 defaultExaminer)
      (wsExaminers.getD 0 defaultExaminer) ∧
     (wsFinalExaminers.getD 0 defaultExaminer).workload =
       (wsExaminers.getD 0 defaultExaminer).workload +
         (wsSol.schedule.countP
           (fun r => decide ((wsExaminers.getD 0 defaultExaminer).id
             ∈ r.assigned_examiners)) : Int)) := by
  have hnd : (wsExaminers.map (fun e => e.id)).Nodup := by decide
  have h := c9_frame zeroScorer wsStudents wsExaminers wsRooms wsTimeslots wsSessions
    default_criteria "SAW" wsSol wsFinalExaminers hnd (by decide)
  exact ⟨hnd, h.1, h.2.1, by decide, h.2.2 0 (by decide)⟩

/-! ## Claim C4 (AHP consistency ratio of the all-ones matrix) -/

theorem mem_spectrum_matrix_iff {n : ℕ} (A : Matrix (Fin n) (Fin n) ℂ) (μ : ℂ) :
    μ ∈ spectrum ℂ A ↔ ∃ v : Fin n → ℂ, v ≠ 0 ∧ A.mulVec v = μ • v := by
  rw [spectrum.mem_iff]
  have hdet : ¬IsUnit (algebraMap ℂ (Matrix (Fin n) (Fin n) ℂ) μ - A) ↔
      (algebraMap ℂ (Matrix (Fin n) (Fin n) ℂ) μ - A).det = 0 := by
    rw [Matrix.isUnit_iff_isUnit_det, isUnit_iff_ne_zero, not_not]
  rw [hdet, ← Matrix.exists_mulVec_eq_zero_iff]
  constructor
  · rintro ⟨v, hv, hmul⟩
    refine ⟨v, hv, ?_⟩
    have h1 : (algebraMap ℂ (Matrix (Fin n) (Fin n) ℂ) μ - A).mulVec v
        = μ • v - A.mulVec v := by
      rw [Matrix.sub_mulVec, Algebra.algebraMap_eq_smul_one, Matrix.smul_mulVec_assoc,
        Matrix.one_mulVec]
    rw [h1] at hmul
    exact (sub_eq_zero.1 hmul).symm
  · rintro ⟨v, hv, hmul⟩
    refine ⟨v, hv, ?_⟩
    rw [Matrix.sub_mulVec, Algebra.algebraMap_eq_smul_one, Matrix.smul_mulVec_assoc,
      Matrix.one_mulVec, hmul, sub_self]

theorem allOnesC_mulVec {n : ℕ} (v : Fin n → ℂ) :
    ((allOnes n).map (fun x => (x : ℂ))).mulVec v = fun _ => ∑ j, v j := by
  funext i
  simp [Matrix.mulVec, Matrix.dotProduct, Matrix.map_apply, allOnes]

theorem allOnes_eigen_abs_le {n : ℕ} {μ : ℂ} {v : Fin n → ℂ} (hv : v ≠ 0)
    (hmul : ((allOnes n).map (fun x => (x : ℂ))).mulVec v = μ • v) :
    Complex.abs μ ≤ n := by
  have hvex : ∃ i, v i ≠ 0 := by
    by_contra hc
    push_neg at hc
    exact hv (funext fun i => hc i)
  obtain ⟨iw, hiw⟩ := hvex
  have hne : (Finset.univ : Finset (Fin n)).Nonempty := ⟨iw, Finset.mem_univ iw⟩
  obtain ⟨i0, _, hmax⟩ := Finset.exists_max_image Finset.univ
    (fun i => Complex.abs (v i)) hne
  have hpos : 0 < Complex.abs (v i0) :=
    lt_of_lt_of_le (AbsoluteValue.pos Complex.abs hiw) (hmax iw (Finset.mem_univ iw))
  rw [allOnesC_mulVec] at hmul
  have heq : μ * v i0 = ∑ j, v j := by
    have h2 := congrFun hmul i0
    simp only [Pi.smul_apply, smul_eq_mul] at h2
    exact h2.symm
  have hstep : Complex.abs μ * Complex.abs (v i0) ≤ (n : ℝ) * Complex.abs (v i0) := by
    calc Complex.abs μ * Complex.abs (v i0)
        = Complex.abs (μ * v i0) := (map_mul Complex.abs μ (v i0)).symm
      _ = Complex.abs (∑ j, v j) := by rw [heq]
      _ ≤ ∑ j, Complex.abs (v j) := AbsoluteValue.sum_le Complex.abs Finset.univ v
      _ ≤ ∑ _j : Fin n, Complex.abs (v i0) :=
          Finset.sum_le_sum (fun j _ => hmax j (Finset.mem_univ j))
      _ = (n : ℝ) * Complex.abs (v i0) := by
          rw [Finset.sum_const, Finset.card_univ, Fintype.card_fin, nsmul_eq_mul]
  exact le_of_mul_le_mul_right hstep hpos

theorem allOnes_n_mem_spectrum {n : ℕ} (hn : 1 ≤ n) :
    ((n : ℂ)) ∈ spectrum ℂ ((allOnes n).map (fun x => (x : ℂ))) := by
  rw [mem_spectrum_matrix_iff]
  refine ⟨fun _ => 1, ?_, ?_⟩
  · intro hc
    have h0 := congrFun hc ⟨0, hn⟩
    simp at h0
  · rw [allOnesC_mulVec]
    funext i
    simp [Finset.sum_const, Finset.card_univ, Fintype.card_fin]

/-- The dominant eigenvalue (largest real part in the spectrum) of the
n-by-n all-ones matrix is `n`. -/
theorem dominant_allOnes {n : ℕ} (hn : 1 ≤ n) :
    dominant_eigenvalue_re (allOnes n) = n := by
  apply IsGreatest.csSup_eq
  constructor
  · exact ⟨(n : ℂ), allOnes_n_mem_spectrum hn, by simp⟩
  · rintro x ⟨μ, hμ, rfl⟩
    rcases (mem_spectrum_matrix_iff _ μ).1 hμ with ⟨v, hv, hmul⟩
    exact le_trans (Complex.re_le_abs μ) (allOnes_eigen_abs_le hv hmul)

theorem random_index_pos (n : ℕ) (hn : 3 ≤ n) : 0 < random_index n := by
  rw [random_index]
  split_ifs <;> first | (exfalso; omega) | norm_num

/-- Claim C4, counterexample to the statement as frozen: for `n = 1` the
consistency index is `(λ − 1) / (1 − 1)`, a division by zero, so numpy
returns a non-finite value (NaN), not the claimed ratio 0. -/
theorem c4_counterexample :
    ahp_consistency_ratio 1 (allOnes 1) = none ∧
    ahp_consistency_ratio 1 (allOnes 1) ≠ some (0 : ℝ) := by
  have h : ahp_consistency_ratio 1 (allOnes 1) = none := by
    rw [ahp_consistency_ratio]
    have h0 : ((1 : ℕ) : ℝ) - 1 = 0 := by norm_num
    rw [h0, fdiv, if_pos rfl]
    rfl
  exact ⟨h, by rw [h]; exact fun hc => by cases hc⟩

/-- Claim C4 (amended): in exact real arithmetic the all-ones matrix gives a
consistency ratio of 0 for every size n ≥ 3; for n = 1 the consistency-index
division is 0/0 and for n = 2 the tabulated random index is 0, so the ratio
division is 0/0 — in both cases numpy produces NaN rather than the claimed
ratio 0. -/
theorem c4_allones_ratio_amended :
    (∀ n : ℕ, 3 ≤ n → ahp_consistency_ratio n (allOnes n) = some 0) ∧
    ahp_consistency_ratio 2 (allOnes 2) = none := by
  constructor
  · intro n hn
    rw [ahp_consistency_ratio, dominant_allOnes (by omega)]
    have h1 : ((n : ℝ)) - 1 ≠ 0 := by
      have h3 : (3 : ℝ) ≤ (n : ℝ) := by exact_mod_cast hn
      intro hc
      have h4 : (n : ℝ) = 1 := by linarith
      linarith
    rw [fdiv, if_neg h1, sub_self, zero_div]
    show fdiv 0 (random_index n) = some 0
    rw [fdiv, if_neg (ne_of_gt (random_index_pos n hn)), zero_div]
  · rw [ahp_consistency_ratio, dominant_allOnes (by omega)]
    have h1 : ((2 : ℕ) : ℝ) - 1 ≠ 0 := by norm_num
    rw [fdiv, if_neg h1, sub_self, zero_div]
    show fdiv 0 (random_index 2) = none
    rw [fdiv, if_pos (show random_index 2 = 0 by norm_num [random_index])]

/-- Witness for C4 (amended) at n = 3. -/
theorem c4_witness :
    (3 ≤ 3) ∧ ahp_consistency_ratio 3 (allOnes 3) = some 0 :=
  ⟨by omega, c4_allones_ratio_amended.1 3 (by omega)⟩

/-! ## C6/C7: SAW and TOPSIS score bounds and the SAW normalizer formulas -/

theorem foldl_max_mem (l : List ℚ) (a : ℚ) : l.foldl max a = a ∨ l.foldl max a ∈ l := by
  induction l generalizing a with
  | nil => exact Or.inl rfl
  | cons y ys ih =>
    rcases ih (max a y) with h | h
    · rcases max_choice a y with hc | hc
      · exact Or.inl (by rw [List.foldl_cons, h, hc])
      · exact Or.inr (by rw [List.foldl_cons, h, hc]; exact List.mem_cons_self y ys)
    · exact Or.inr (List.mem_cons_of_mem y h)

theorem qMax_mem {l : List ℚ} (h : l ≠ []) : qMax l ∈ l := by
  cases l with
  | nil => exact absurd rfl h
  | cons y ys =>
    rcases foldl_max_mem ys y with he | he
    · rw [qMax, he]; exact List.mem_cons_self y ys
    · rw [qMax]; exact List.mem_cons_of_mem y he

/-- Entry `(i, j)` of the SAW-normalized matrix is `sawNormEntry` of column `j`,
the column's criteria type and the raw entry. -/
theorem normalize_matrix_entry (m : List (List ℚ)) (types : List CriteriaType)
    (i j : ℕ) (hi : i < m.length) (hj : j < types.length) :
    ((normalize_matrix m types).getD i []).getD j 0 =
      sawNormEntry (column m j) (types.getD j .benefit) ((m.getD i []).getD j 0) := by
  have hi1 : i < (normalize_matrix m types).length := by
    simpa [normalize_matrix] using hi
  rw [List.getD_eq_getElem _ _ hi1]
  simp only [normalize_matrix, List.getElem_map]
  have hj1 : j < ((List.range types.length).map (fun j =>
      sawNormEntry (column m j) (types.getD j .benefit) ((m[i]).getD j 0))).length := by
    simpa using hj
  rw [List.getD_eq_getElem _ _ hj1]
  simp only [List.getElem_map, List.getElem_range]
  rw [List.getD_eq_getElem m [] hi]

/-- The TOPSIS closeness ratio `b / (a + b)` of two nonnegative distances lies
in `[0, 1]` (with Lean's `0` for the `0/0` case, mirroring
`np.nan_to_num(scores, nan=0.0)`). -/
theorem ratio_unit {a b : ℝ} (ha : 0 ≤ a) (hb : 0 ≤ b) :
    0 ≤ b / (a + b) ∧ b / (a + b) ≤ 1 := by
  by_cases h : a + b = 0
  · rw [h, div_zero]; norm_num
  · have hpos : 0 < a + b := lt_of_le_of_ne (by linarith) (Ne.symm h)
    exact ⟨div_nonneg hb (le_of_lt hpos), (div_le_one hpos).2 (by linarith)⟩

/-- Every SAW score of a nonnegative matrix with nonnegative weights summing
to 1 lies in `[0, 1]`, provided no cost-tagged column is entirely zero. -/
theorem saw_scores_unit (m : List (List ℚ)) (weights : List ℚ)
    (types : List CriteriaType)
    (hm : ∀ row ∈ m, ∀ x ∈ row, 0 ≤ x)
    (hw : ∀ w ∈ weights, 0 ≤ w) (hw1 : weights.sum = 1)
    (hcost : ∀ j, j < types.length → types.getD j .benefit = .cost →
      ∃ x ∈ column m j, x ≠ 0) :
    ∀ s ∈ saw_calculate_scores m weights types, 0 ≤ s ∧ s ≤ 1 := by
  intro s hs
  rw [saw_calculate_scores] at hs
  rcases List.mem_map.1 hs with ⟨nrow, hnrow, rfl⟩
  have hnrow1 : ∀ x ∈ nrow, 0 ≤ x ∧ x ≤ 1 := by
    rw [normalize_matrix] at hnrow
    rcases List.mem_map.1 hnrow with ⟨row, hrowm, rfl⟩
    intro x hx
    rcases List.mem_map.1 hx with ⟨j, hj, rfl⟩
    have hjlt : j < types.length := List.mem_range.1 hj
    exact sawNormEntry_unit (column_nonneg hm)
      (List.mem_map.2 ⟨row, hrowm, rfl⟩)
      (hcost j hjlt)
  have hb := dot_unit_bounds nrow weights hnrow1 hw
  rw [hw1] at hb
  exact hb

/-- Every TOPSIS score lies in `[0, 1]`, unconditionally: each score is a
closeness ratio of two square roots. -/
theorem topsis_scores_unit (m : List (List ℚ)) (weights : List ℚ)
    (types : List CriteriaType) :
    ∀ s ∈ topsis_calculate_scores m weights types, 0 ≤ s ∧ s ≤ 1 := by
  intro s hs
  simp only [topsis_calculate_scores] at hs
  rcases List.mem_map.1 hs with ⟨row, _, rfl⟩
  exact ratio_unit (Real.sqrt_nonneg _) (Real.sqrt_nonneg _)

unseal Rat.add Rat.mul Rat.sub Rat.inv Rat.ofScientific in
/-- Claim C6, counterexample to the statement as frozen: the claim requires
only that the weights sum to 1.  With the nonnegative matrix `[[1, 0]]` and
the weight vector `[2, -1]` (which sums to 1), the SAW score is `2`, outside
`[0, 1]`. -/
theorem c6_counterexample :
    (∀ row ∈ [[(1 : ℚ), 0]], ∀ x ∈ row, 0 ≤ x) ∧ ([(2 : ℚ), -1].sum = 1) ∧
    ∃ s ∈ saw_calculate_scores [[(1 : ℚ), 0]] [2, -1] [.benefit, .benefit],
      ¬(0 ≤ s ∧ s ≤ 1) := by decide

/-- Claim C6 (amended): for every decision matrix with all entries
nonnegative and every NONNEGATIVE weight vector summing to 1, with no
cost-tagged column entirely zero (there the SAW cost fallback computes
`1 - 0/0`, NaN in numpy), every SAW score and every TOPSIS score lies in
`[0, 1]`. -/
theorem c6_scores_unit_interval_amended (m : List (List ℚ)) (weights : List ℚ)
    (types : List CriteriaType)
    (hm : ∀ row ∈ m, ∀ x ∈ row, 0 ≤ x)
    (hw : ∀ w ∈ weights, 0 ≤ w) (hw1 : weights.sum = 1)
    (hcost : ∀ j, j < types.length → types.getD j .benefit = .cost →
      ∃ x ∈ column m j, x ≠ 0) :
    (∀ s ∈ saw_calculate_scores m weights types, 0 ≤ s ∧ s ≤ 1) ∧
    (∀ s ∈ topsis_calculate_scores m weights types, 0 ≤ s ∧ s ≤ 1) :=
  ⟨saw_scores_unit m weights types hm hw hw1 hcost,
   topsis_scores_unit m weights types⟩

unseal Rat.add Rat.mul Rat.sub Rat.inv Rat.ofScientific in
/-- Witness for C6 (amended) at the matrix `[[1, 2], [3, 4]]`, weights
`[1/2, 1/2]` and types `[benefit, cost]`. -/
theorem c6_witness :
    (∀ s ∈ saw_calculate_scores [[(1 : ℚ), 2], [3, 4]] [1/2, 1/2]
        [.benefit, .cost], 0 ≤ s ∧ s ≤ 1) ∧
    (∀ s ∈ topsis_calculate_scores [[(1 : ℚ), 2], [3, 4]] [1/2, 1/2]
        [.benefit, .cost], 0 ≤ s ∧ s ≤ 1) :=
  c6_scores_unit_interval_amended [[(1 : ℚ), 2], [3, 4]] [1/2, 1/2]
    [.benefit, .cost] (by decide) (by decide) (by decide) (by decide)

/-- Claim C7: the SAW normalizer maps entry `(i, j)` (value `v`, column `c`)
to `min(c) / v` for a cost column with all entries nonzero, to
`1 - v / max(c)` for a cost column with some zero entry, to `v / max(c)` for
a benefit column with some nonzero entry, and leaves `v` unchanged for an
all-zero benefit column.  Stated for nonnegative columns (spec section 3),
so that `max(c) = 0` is exactly the all-zero case. -/
theorem c7_saw_normalizer (m : List (List ℚ)) (types : List CriteriaType)
    (i j : ℕ) (hi : i < m.length) (hj : j < types.length)
    (hnn : ∀ x ∈ column m j, 0 ≤ x) :
    (types.getD j .benefit = .cost →
      ((∀ x ∈ column m j, x ≠ 0) →
        ((normalize_matrix m types).getD i []).getD j 0 =
          qMin (column m j) / ((m.getD i []).getD j 0)) ∧
      (¬(∀ x ∈ column m j, x ≠ 0) →
        ((normalize_matrix m types).getD i []).getD j 0 =
          1 - ((m.getD i []).getD j 0) / qMax (column m j))) ∧
    (types.getD j .benefit = .benefit →
      ((∃ x ∈ column m j, x ≠ 0) →
        ((normalize_matrix m types).getD i []).getD j 0 =
          ((m.getD i []).getD j 0) / qMax (column m j)) ∧
      ((∀ x ∈ column m j, x = 0) →
        ((normalize_matrix m types).getD i []).getD j 0 =
          ((m.getD i []).getD j 0))) := by
  rw [normalize_matrix_entry m types i j hi hj]
  have hm0 : m ≠ [] := List.ne_nil_of_length_pos (Nat.lt_of_le_of_lt (Nat.zero_le i) hi)
  have hcne : column m j ≠ [] := by
    rw [column]
    simpa using hm0
  constructor
  · intro hcost
    rw [hcost, sawNormEntry]
    constructor
    · intro hne
      have hall : (column m j).all (fun x => decide (x ≠ 0)) = true :=
        List.all_eq_true.2 (fun x hx => decide_eq_true (hne x hx))
      rw [if_pos hall]
    · intro hne
      have hall : ¬((column m j).all (fun x => decide (x ≠ 0)) = true) := by
        intro h
        exact hne (fun x hx => of_decide_eq_true (List.all_eq_true.1 h x hx))
      rw [if_neg hall]
  · intro hben
    rw [hben, sawNormEntry]
    constructor
    · rintro ⟨x, hx, hxne⟩
      have hxpos : 0 < x := lt_of_le_of_ne (hnn x hx) (Ne.symm hxne)
      have hmax : qMax (column m j) ≠ 0 :=
        ne_of_gt (lt_of_lt_of_le hxpos (le_qMax hx))
      rw [if_pos hmax]
    · intro hzero
      have hmax : qMax (column m j) = 0 := hzero _ (qMax_mem hcne)
      rw [if_neg (not_not_intro hmax)]

unseal Rat.add Rat.mul Rat.sub Rat.inv Rat.ofScientific in
/-- Witness for C7 at the matrix `[[2], [4]]`, a single cost column with all
entries nonzero, at entry `(0, 0)`. -/
theorem c7_witness :
    ((0 : ℕ) < ([[(2 : ℚ)], [4]] : List (List ℚ)).length) ∧
    ((normalize_matrix [[(2 : ℚ)], [4]] [.cost]).getD 0 []).getD 0 0 =
      qMin (column [[(2 : ℚ)], [4]] 0) / (([[(2 : ℚ)], [4]].getD 0 []).getD 0 0) :=
  ⟨by decide,
   ((c7_saw_normalizer [[(2 : ℚ)], [4]] [.cost] 0 0 (by decide) (by decide)
      (by decide)).1 (by decide)).1 (by decide)⟩

end DSS
